import Mathlib

/-!
Verification of the quiz-generator application (`quizapp.py`).

The development shallowly embeds the program:

* `Json`, `pVal`/`pElems`/`pMembers`/`pStr`/`pNum`, `json_loads` — a model of
  Python's `json.loads` (RFC-8259 grammar as implemented by `json/decoder.py`:
  leading/trailing JSON whitespace ignored, `NaN`/`Infinity`/`-Infinity`
  accepted, objects keep the last binding for a duplicated key).
* `pyStrip`, `removeLeading`, `removeTrailing`, `cleanResponse` — the response
  cleaning step `resp.strip().removeprefix("```json").removesuffix("```").strip()`
  of `fetch_questions` (line 71).
* `fetch_questions` — the post-request logic of `fetch_questions` (lines 62-97),
  over an abstract outcome `ApiResult` of the `generate_content` call.
* `generateQuiz` — the generate-button logic of `main` (lines 121-141).
* `submitQuiz` — the form-submission logic of `main` (lines 160-184).

Machine strings are `List Char`; the few user-facing message strings stay
`String`.  `str.strip` whitespace is modelled by its ASCII part (space, TAB,
LF, CR, VT, FF); Python additionally strips some rare Unicode space code
points, which no claim depends on.
-/

/-- Parsed JSON values, as produced by `json.loads`.  Numbers keep their
lexeme: no claim depends on numeric value semantics. -/
inductive Json where
  | null : Json
  | bool (b : Bool) : Json
  | num (lex : String) : Json
  | str (s : String) : Json
  | arr (elems : List Json) : Json
  | obj (fields : List (String × Json)) : Json

instance : Inhabited Json := ⟨Json.null⟩

/-- JSON whitespace, the characters skipped by `json.loads` between tokens
(`json.decoder.WHITESPACE`). -/
def jws (c : Char) : Bool :=
  c = ' ' || c = '\t' || c = '\n' || c = '\r'

/-- Whitespace as stripped by Python `str.strip()` (ASCII part). -/
def isPySpace (c : Char) : Bool :=
  c = ' ' || c = '\t' || c = '\n' || c = '\r' || c = '\x0b' || c = '\x0c'

/-- Skip JSON whitespace (`json.decoder._w(s, i).end()`). -/
def skipWs (cs : List Char) : List Char := cs.dropWhile jws

/-- Value of a hexadecimal digit, for `\uXXXX` escapes. -/
def hexVal (c : Char) : Option Nat :=
  if c.isDigit then some (c.toNat - ('0').toNat)
  else if ('a') ≤ c ∧ c ≤ ('f') then some (c.toNat - ('a').toNat + 10)
  else if ('A') ≤ c ∧ c ≤ ('F') then some (c.toNat - ('A').toNat + 10)
  else none

/-- Single-character string escapes recognised by `json/decoder.py`
(`BACKSLASH` table). -/
def escChar (c : Char) : Option Char :=
  if c = '"' then some ('"')
  else if c = '\\' then some ('\\')
  else if c = '/' then some ('/')
  else if c = 'b' then some (Char.ofNat 8)
  else if c = 'f' then some (Char.ofNat 12)
  else if c = 'n' then some ('\n')
  else if c = 'r' then some ('\r')
  else if c = 't' then some ('\t')
  else none

/-- String-body scanner (`py_scanstring`, strict mode): stops at the closing
quote, rejects raw control characters below 0x20, decodes escapes.  A
`\uXXXX` escape becomes the character with that code (an isolated surrogate
is mapped through `Char.ofNat`'s total extension). -/
def pStr : List Char → Option (List Char × List Char)
  | [] => none
  | c :: r =>
    if c = '"' then some ([], r)
    else if c = '\\' then
      match r with
      | [] => none
      | e :: r₂ =>
        if e = 'u' then
          match r₂ with
          | h₁ :: h₂ :: h₃ :: h₄ :: r₃ =>
            match hexVal h₁, hexVal h₂, hexVal h₃, hexVal h₄ with
            | some a, some b, some c', some d =>
              (pStr r₃).map (fun p => (Char.ofNat (((a * 16 + b) * 16 + c') * 16 + d) :: p.1, p.2))
            | _, _, _, _ => none
          | _ => none
        else
          match escChar e with
          | some ec => (pStr r₂).map (fun p => (ec :: p.1, p.2))
          | none => none
    else if c.toNat < 32 then none
    else (pStr r).map (fun p => (c :: p.1, p.2))

/-- Integer part of a number: `-?(0|[1-9][0-9]*)` without the sign
(`json.scanner.NUMBER_RE`, first group). -/
def pIntPart : List Char → Option (List Char × List Char)
  | [] => none
  | c :: r =>
    if c = '0' then some ([c], r)
    else if c.isDigit then some (c :: r.takeWhile Char.isDigit, r.dropWhile Char.isDigit)
    else none

/-- Optional fraction `(\.[0-9]+)?`: taken only when the dot is followed by at
least one digit. -/
def pFrac (cs : List Char) : List Char × List Char :=
  match cs with
  | c :: r =>
    if c = '.' then
      match r.takeWhile Char.isDigit with
      | [] => ([], cs)
      | ds => (c :: ds, r.dropWhile Char.isDigit)
    else ([], cs)
  | [] => ([], cs)

/-- Optional exponent `([eE][-+]?[0-9]+)?`: taken only when complete. -/
def pExp (cs : List Char) : List Char × List Char :=
  match cs with
  | e :: r =>
    if e = 'e' ∨ e = 'E' then
      match r with
      | s :: r₂ =>
        if s = '+' ∨ s = '-' then
          match r₂.takeWhile Char.isDigit with
          | [] => ([], cs)
          | ds => (e :: s :: ds, r₂.dropWhile Char.isDigit)
        else
          match r.takeWhile Char.isDigit with
          | [] => ([], cs)
          | ds => (e :: ds, r.dropWhile Char.isDigit)
      | [] => ([], cs)
    else ([], cs)
  | [] => ([], cs)

/-- Number scanner, following `json.scanner.NUMBER_RE`. -/
def pNum (cs : List Char) : Option (Json × List Char) :=
  match cs with
  | [] => none
  | c :: r =>
    if c = '-' then
      match pIntPart r with
      | none => none
      | some (ip, r₁) =>
        let f := pFrac r₁
        let e := pExp f.2
        some (.num (String.mk ((c :: ip) ++ f.1 ++ e.1)), e.2)
    else
      match pIntPart (c :: r) with
      | none => none
      | some (ip, r₁) =>
        let f := pFrac r₁
        let e := pExp f.2
        some (.num (String.mk (ip ++ f.1 ++ e.1)), e.2)

mutual

/-- Value scanner (`_json.make_scanner` / `py_make_scanner`): dispatch on the
first character.  `fuel` bounds the `value → container → value` recursion
depth; `json_loads` supplies a fuel that is always sufficient. -/
def pVal : Nat → List Char → Option (Json × List Char)
  | 0, _ => none
  | Nat.succ f, cs =>
    match cs with
    | [] => none
    | c :: r =>
      if c = '"' then (pStr r).map (fun p => (.str (String.mk p.1), p.2))
      else if c = '\x7b' then
        match skipWs r with
        | '\x7d' :: r₂ => some (.obj [], r₂)
        | cs₂ => (pMembers f cs₂).map (fun p => (.obj p.1, p.2))
      else if c = '[' then
        match skipWs r with
        | ']' :: r₂ => some (.arr [], r₂)
        | cs₂ => (pElems f cs₂).map (fun p => (.arr p.1, p.2))
      else if c = 'n' then
        match r with
        | 'u' :: 'l' :: 'l' :: r' => some (.null, r')
        | _ => none
      else if c = 't' then
        match r with
        | 'r' :: 'u' :: 'e' :: r' => some (.bool true, r')
        | _ => none
      else if c = 'f' then
        match r with
        | 'a' :: 'l' :: 's' :: 'e' :: r' => some (.bool false, r')
        | _ => none
      else if c = 'N' then
        match r with
        | 'a' :: 'N' :: r' => some (.num (String.mk ['N', 'a', 'N']), r')
        | _ => none
      else if c = 'I' then
        match r with
        | 'n' :: 'f' :: 'i' :: 'n' :: 'i' :: 't' :: 'y' :: r' =>
          some (.num (String.mk ['I', 'n', 'f', 'i', 'n', 'i', 't', 'y']), r')
        | _ => none
      else if c = '-' then
        match r with
        | 'I' :: 'n' :: 'f' :: 'i' :: 'n' :: 'i' :: 't' :: 'y' :: r' =>
          some (.num (String.mk ['-', 'I', 'n', 'f', 'i', 'n', 'i', 't', 'y']), r')
        | _ => pNum cs
      else if c.isDigit then pNum cs
      else none

/-- Elements of a non-empty array (`JSONArray` loop): called after `[` with
whitespace already skipped; each element is followed by optional whitespace
and `,` or `]`. -/
def pElems : Nat → List Char → Option (List Json × List Char)
  | 0, _ => none
  | Nat.succ f, cs =>
    match pVal f cs with
    | none => none
    | some (v, r) =>
      match skipWs r with
      | ']' :: r₂ => some ([v], r₂)
      | ',' :: r₂ =>
        match pElems f (skipWs r₂) with
        | none => none
        | some (vs, r₃) => some (v :: vs, r₃)
      | _ => none

/-- Members of a non-empty object (`JSONObject` loop): `"key"`, whitespace,
`:`, whitespace, value, whitespace, then `,` (and the next key) or the
closing brace. -/
def pMembers : Nat → List Char → Option (List (String × Json) × List Char)
  | 0, _ => none
  | Nat.succ f, cs =>
    match cs with
    | '"' :: r =>
      match pStr r with
      | none => none
      | some (k, r₁) =>
        match skipWs r₁ with
        | ':' :: r₂ =>
          match pVal f (skipWs r₂) with
          | none => none
          | some (v, r₃) =>
            match skipWs r₃ with
            | '\x7d' :: r₄ => some ([(String.mk k, v)], r₄)
            | ',' :: r₄ =>
              match pMembers f (skipWs r₄) with
              | none => none
              | some (ms, r₅) => some ((String.mk k, v) :: ms, r₅)
            | _ => none
        | _ => none
    | _ => none

end

/-- `json.loads`: skip leading whitespace, scan one value, require that only
whitespace follows.  `none` models `json.JSONDecodeError`.  The fuel
`2·|input| + 2` exceeds the scanner's recursion depth on any input. -/
def json_loads (cs : List Char) : Option Json :=
  let t := skipWs cs
  match pVal (2 * t.length + 2) t with
  | some (v, rest) => if skipWs rest = [] then some v else none
  | none => none

/-- Python `str.strip()` on a character list (ASCII whitespace). -/
def pyStrip (s : List Char) : List Char :=
  ((s.dropWhile isPySpace).reverse.dropWhile isPySpace).reverse

/-- Python `str.removeprefix(p)`: drop `p` when the string starts with it. -/
def removeLeading (p s : List Char) : List Char :=
  if s.take p.length = p then s.drop p.length else s

/-- Python `str.removesuffix(p)`: drop `p` when the string ends with it. -/
def removeTrailing (p s : List Char) : List Char :=
  if s.drop (s.length - p.length) = p then s.take (s.length - p.length) else s

/-- Markdown-fence cleaning of the raw response text (line 71):
`extracted.strip().removeprefix("```json").removesuffix("```").strip()`. -/
def cleanResponse (t : List Char) : List Char :=
  pyStrip (removeTrailing ("```").data (removeLeading ("```json").data (pyStrip t)))

/-- Wrapping a payload in the code-fence markers named by the spec:
the literal ```` ```json ```` before and ```` ``` ```` after. -/
def wrapFence (p : List Char) : List Char :=
  ("```json").data ++ p ++ ("```").data

/-- Python `dict.get` on a JSON object: the binding for `k`, taking the last
occurrence (as `json.loads` builds a `dict`, later keys overwrite earlier
ones). -/
def dictGet (fields : List (String × Json)) (k : String) : Option Json :=
  (fields.reverse.find? (fun p => p.1 == k)).map (fun p => p.2)

/-- Exceptions that matter to the model: `KeyError` (carrying `str(e)`),
`TypeError`, and `IndexError`. -/
inductive PyExn where
  | keyError (detail : String) : PyExn
  | typeError : PyExn
  | indexError : PyExn
deriving DecidableEq

/-- Python `repr` of a loaded JSON value, used by `str` on containers.
Numbers render their lexeme and nested strings are not re-escaped; no claim
depends on these corners. -/
def pyRepr : Json → String
  | .null => "None"
  | .bool true => "True"
  | .bool false => "False"
  | .num lex => lex
  | .str s => "'" ++ s ++ "'"
  | .arr xs => "[" ++ String.intercalate (", ") (xs.attach.map (fun x => pyRepr x.1)) ++ "]"
  | .obj fs =>
    "\x7b" ++
      String.intercalate (", ")
        (fs.attach.map (fun f => "'" ++ f.1.1 ++ "': " ++ pyRepr f.1.2)) ++ "\x7d"
decreasing_by
  · have := List.sizeOf_lt_of_mem x.2
    simp only [Json.arr.sizeOf_spec]
    omega
  · have h1 := List.sizeOf_lt_of_mem f.2
    have h2 : sizeOf f.1.2 < sizeOf f.1 := by
      obtain ⟨a, b⟩ := f.1
      simp only [Prod.mk.sizeOf_spec]
      omega
    simp only [Json.obj.sizeOf_spec]
    omega

/-- Python `str` of a loaded JSON value (`str` of a `str` is itself; other
values render as their `repr`). -/
def pyStr : Json → String
  | .str s => s
  | j => pyRepr j

-- User-facing message strings, verbatim from the source.

/-- Message of line 65 (empty/blocked response). -/
def blockedMsg (reason : String) : String :=
  "Failed to generate quiz. Response was empty or blocked. Reason: " ++ reason

/-- Message of line 83 (JSON parse failure). -/
def parseFailMsg : String :=
  "Failed to parse the API response as JSON. Check console log for raw response."

/-- Console log of line 84. -/
def rawLogMsg (t : List Char) : String :=
  "RAW API RESPONSE (JSON PARSE FAILED):\n" ++ String.mk t

/-- Message of line 77 (missing / non-list / empty `mcqs`). -/
def structureMsg : String :=
  "API returned unexpected JSON structure or empty MCQs list."

/-- Message of line 89 (`ResourceExhausted`). -/
def rateLimitMsg : String :=
  "🚦 Rate limit exceeded. The API is busy. Please wait a minute and try again."

/-- Console log of line 90. -/
def rateLogMsg (detail : String) : String :=
  "RATE LIMIT ERROR: " ++ detail

/-- Message of line 95 (catch-all `except Exception`). -/
def unexpectedMsg (detail : String) : String :=
  "An unexpected error occurred: " ++ detail

/-- Console log of line 96. -/
def unexpectedLogMsg (detail : String) : String :=
  "UNEXPECTED ERROR: " ++ detail

/-- Message of line 141 (generate pressed with empty text). -/
def emptyTextMsg : String :=
  "⚠️ Please paste some text content to generate a quiz."

/-- Message of line 138 (`KeyError` while extracting answers). -/
def invalidStructMsg (detail : String) : String :=
  "Error processing generated questions: Invalid structure (" ++ detail ++ ")."

/-- Message of line 136. -/
def successMsg : String := "Quiz generated successfully!"

/-- Message of line 163 (submission with an unanswered question). -/
def unansweredMsg : String :=
  "⚠️ Please answer all questions before submitting."

/-- Message of line 184 (final tally). -/
def finalScoreMsg (marks total : Nat) : String :=
  "🏁 Your Final Score: " ++ toString marks ++ " out of " ++ toString total

/-- Python type name of a loaded JSON value, for the `AttributeError` text
raised by `.get` on a non-dict. -/
def pyTypeName : Json → String
  | .null => "NoneType"
  | .bool _ => "bool"
  | .num lex => if lex.data.any (fun c => c = '.' || c = 'e' || c = 'E') then "float" else "int"
  | .str _ => "str"
  | .arr _ => "list"
  | .obj _ => "dict"

/-- `str` of the `AttributeError` raised by `quiz_data.get` when the parsed
response is not an object. -/
def attrErrDetail (j : Json) : String :=
  "'" ++ pyTypeName j ++ "' object has no attribute 'get'"

/-- Outcome of the `model.generate_content` call (line 61), the program's
external collaborator: a blocked/empty response, a normal text payload, or a
raised exception. -/
inductive ApiResult where
  | blocked (reason : String) : ApiResult
  | ok (text : List Char) : ApiResult
  | resourceExhausted (detail : String) : ApiResult
  | otherError (detail : String) : ApiResult

/-- Result of `fetch_questions`: the returned list, Streamlit messages in
order of emission, console prints, and any exception escaping the function.
The function body is wrapped in handlers ending in a catch-all
`except Exception` (line 94), so `raised` is `none` on every path. -/
structure FetchResult where
  questions : List Json
  uiMessages : List String
  consoleLogs : List String
  raised : Option PyExn

/-- Lines 73-80: `quiz_data.get("mcqs", [])` followed by the
`isinstance(mcqs, list) and len(mcqs) > 0` check.  On a non-dict the `.get`
raises `AttributeError`, caught by the catch-all handler of line 94. -/
def processQuizData : Json → FetchResult
  | .obj fs =>
    match (dictGet fs "mcqs").getD (Json.arr []) with
    | .arr [] => ⟨[], [structureMsg], [], none⟩
    | .arr (q :: qs) => ⟨q :: qs, [], [], none⟩
    | _ => ⟨[], [structureMsg], [], none⟩
  | j => ⟨[], [unexpectedMsg (attrErrDetail j)], [unexpectedLogMsg (attrErrDetail j)], none⟩

/-- `fetch_questions` after the `generate_content` call (lines 62-97): check
for a blocked response, clean the text, parse it, extract `mcqs`; each
`except` branch reports and returns `[]`. -/
def fetch_questions : ApiResult → FetchResult
  | .blocked reason => ⟨[], [blockedMsg reason], [], none⟩
  | .resourceExhausted d => ⟨[], [rateLimitMsg], [rateLogMsg d], none⟩
  | .otherError d => ⟨[], [unexpectedMsg d], [unexpectedLogMsg d], none⟩
  | .ok t =>
    match json_loads (cleanResponse t) with
    | none => ⟨[], [parseFailMsg], [rawLogMsg t], none⟩
    | some j => processQuizData j

/-- The two session-scoped values (`st.session_state.questions` and
`st.session_state.corrected_answers`). -/
structure SessionState where
  questions : List Json
  corrected_answers : List Json

/-- Lines 106-107: both keys default to the empty list. -/
def initState : SessionState := ⟨[], []⟩

/-- Error of the comprehension `q["options"][q["correct"]]`:
only `KeyError` is caught by line 137. -/
inductive ExtractErr where
  | keyError (detail : String) : ExtractErr
  | typeError : ExtractErr
deriving DecidableEq

/-- One step of the answer-extraction comprehension (line 134):
`q["options"][q["correct"]]`, with Python's subscript semantics —
`KeyError` for a missing key of a dict (including non-string hashable
keys), `TypeError` for subscripting a non-dict with a string or for an
unhashable key. -/
def extractAnswer (q : Json) : Except ExtractErr Json :=
  match q with
  | .obj fs =>
    match dictGet fs "options" with
    | none => .error (.keyError ("'options'"))
    | some opts =>
      match dictGet fs "correct" with
      | none => .error (.keyError ("'correct'"))
      | some corr =>
        match opts with
        | .obj ofs =>
          match corr with
          | .str k =>
            match dictGet ofs k with
            | some v => .ok v
            | none => .error (.keyError ("'" ++ k ++ "'"))
          | .arr _ => .error .typeError
          | .obj _ => .error .typeError
          | other => .error (.keyError (pyRepr other))
        | _ => .error .typeError
  | _ => .error .typeError

/-- The whole comprehension of lines 133-135: left to right, stopping at the
first exception. -/
def extractAnswers : List Json → Except ExtractErr (List Json)
  | [] => .ok []
  | q :: qs =>
    match extractAnswer q with
    | .error e => .error e
    | .ok a =>
      match extractAnswers qs with
      | .error e => .error e
      | .ok rest => .ok (a :: rest)

/-- Outcome of pressing the generate button: the session state afterwards,
messages and console prints, how many API calls were made, and any exception
escaping `main`. -/
structure GenOutcome where
  state : SessionState
  uiMessages : List String
  consoleLogs : List String
  apiCalls : Nat
  raised : Option PyExn

/-- Lines 121-141: reset both state keys, then — unless the text is empty —
fetch; on a non-empty result store the questions and extract the answers,
clearing `questions` again if a `KeyError` occurs (`corrected_answers` was
never assigned, so it keeps the reset value `[]`).  A non-`KeyError`
exception from the extraction escapes `main` after `questions` was already
stored. -/
def generateQuiz (_prev : SessionState) (textContent : String) (api : ApiResult) : GenOutcome :=
  if textContent = "" then ⟨⟨[], []⟩, [emptyTextMsg], [], 0, none⟩
  else
    let fr := fetch_questions api
    match fr.questions with
    | [] => ⟨⟨[], []⟩, fr.uiMessages, fr.consoleLogs, 1, none⟩
    | q :: qs =>
      match extractAnswers (q :: qs) with
      | .ok answers =>
        ⟨⟨q :: qs, answers⟩, fr.uiMessages ++ [successMsg], fr.consoleLogs, 1, none⟩
      | .error (.keyError d) =>
        ⟨⟨[], []⟩, fr.uiMessages ++ [invalidStructMsg d], fr.consoleLogs, 1, none⟩
      | .error .typeError =>
        ⟨⟨q :: qs, []⟩, fr.uiMessages, fr.consoleLogs, 1, some .typeError⟩

/-- Whether the quiz form is rendered (line 144: `if st.session_state.questions:`). -/
def showsQuiz (s : SessionState) : Bool := !s.questions.isEmpty

/-- Python `str(x).strip().lower()` on an option value (ASCII lower case, as
`str.lower` acts on these strings). -/
def pyNorm (j : Json) : String :=
  String.mk ((pyStrip (pyStr j).data).map Char.toLower)

/-- `str(selected)` where `selected` may be Python `None`. -/
def pyNormSel (o : Option Json) : String :=
  match o with
  | some j => pyNorm j
  | none => String.mk ((("None").data).map Char.toLower)

/-- The comparison of line 177. -/
def answersMatch (sel : Option Json) (correct : Json) : Bool :=
  pyNormSel sel == pyNorm correct

/-- `user_selections.get(i)` — the radio selection for question `i`
(`None` when the dict has no such key, which cannot happen for rendered
questions). -/
def selAt (sels : List (Option Json)) (i : Nat) : Option Json :=
  (sels.get? i).getD none

/-- The scoring loop of lines 169-182: for each question take the selection
and `corrected_answers[i]` (an `IndexError` if the key list is shorter), then
render the subheader of line 173, whose subscript `question['mcq']` raises
`KeyError` on a mapping without that key and `TypeError` on a non-mapping,
and count the case-insensitive trimmed matches. -/
def scoreGo : List Json → List (Option Json) → List Json → Except PyExn Nat
  | [], _, _ => .ok 0
  | q :: qs, sels, ans =>
    let sel : Option Json := sels.headD none
    match ans with
    | [] => .error .indexError
    | a :: ans' =>
      match q with
      | .obj fs =>
        match dictGet fs "mcq" with
        | none => .error (.keyError ("'mcq'"))
        | some _ =>
          match scoreGo qs sels.tail ans' with
          | .error e => .error e
          | .ok m => .ok (m + (if answersMatch sel a then 1 else 0))
      | _ => .error .typeError

/-- The per-question result lines (`st.success "✔️ Correct!"` /
`st.error "❌ Incorrect."`). -/
def markLines (n : Nat) (sels : List (Option Json)) (ans : List Json) : List String :=
  (List.range n).map (fun i =>
    if answersMatch (selAt sels i) (ans.getD i Json.null) then ("✔️ Correct!")
    else ("❌ Incorrect."))

/-- Result of pressing the submit button. -/
structure SubmitResult where
  state : SessionState
  uiMessages : List String
  score : Option (Nat × Nat)
  raised : Option PyExn

/-- Lines 160-184: warn if any selection is `None`; otherwise score and show
the tally.  No branch writes to the session state (the clearing code of
lines 187-189 is commented out).  The per-question subheaders and answer
echoes are not recorded; `uiMessages` keeps the warning or the
correct/incorrect marks and the final tally. -/
def submitQuiz (s : SessionState) (sels : List (Option Json)) : SubmitResult :=
  if sels.any (fun o => o.isNone) then ⟨s, [unansweredMsg], none, none⟩
  else
    match scoreGo s.questions sels s.corrected_answers with
    | .ok m =>
      ⟨s, markLines s.questions.length sels s.corrected_answers ++
            [finalScoreMsg m s.questions.length],
        some (m, s.questions.length), none⟩
    | .error e => ⟨s, [], none, some e⟩

/-- The spec's `options[correctLetter]` for one question: the option text the
`correct` letter denotes, when the question has an `options` mapping and its
`correct` letter is one of its keys. -/
def resolveAnswer (q : Json) : Option Json :=
  match q with
  | .obj fs =>
    match dictGet fs "options", dictGet fs "correct" with
    | some (.obj opts), some (.str k) => dictGet opts k
    | _, _ => none
  | _ => none

/-- Whether a loaded JSON value is a mapping (a Python `dict`). -/
def isObjB : Json → Bool
  | .obj _ => true
  | _ => false

/-- A question on which the scoring subscript `question['mcq']` of line 173
succeeds: a mapping carrying an `mcq` key. -/
def hasMcq : Json → Bool
  | .obj fs => (dictGet fs "mcq").isSome
  | _ => false

/-- A question on which neither the extraction subscripts nor the scoring
subscript of line 173 can raise past `main`: a mapping carrying an `mcq`
key, whose `options` value (when present) is a mapping and whose `correct`
value (when present) is hashable (not a list or dict). -/
def benign (q : Json) : Bool :=
  match q with
  | .obj fs =>
    (dictGet fs "mcq").isSome &&
    (match dictGet fs "options" with
     | none => true
     | some (.obj _) => true
     | some _ => false) &&
    (match dictGet fs "correct" with
     | some (.arr _) => false
     | some (.obj _) => false
     | _ => true)
  | _ => false

/-- The first character (if any) is not Python whitespace. -/
def headNotWs (l : List Char) : Bool :=
  match l.head? with
  | none => false
  | some c => !isPySpace c

/-- The last character (if any) is not Python whitespace. -/
def lastNotWs (l : List Char) : Bool :=
  match l.getLast? with
  | none => false
  | some c => !isPySpace c

/-- A continuation whose first character cannot extend a number lexeme. -/
def numSafe (l : List Char) : Bool :=
  match l.head? with
  | none => true
  | some c => !(c.isDigit || c = '.' || c = 'e' || c = 'E')

/-- A continuation whose first character is not a digit. -/
def digitSafe (l : List Char) : Bool :=
  match l.head? with
  | none => true
  | some c => !c.isDigit

/-- Characters that can begin a JSON value in the scanner's dispatch. -/
def tokenHead (c : Char) : Bool :=
  c = '"' || c = '\x7b' || c = '[' || c = 'n' || c = 't' || c = 'f' ||
    c = 'N' || c = 'I' || c = '-' || c.isDigit

theorem extractAnswer_of_resolve {q : Json} {a : Json} (h : resolveAnswer q = some a) :
    extractAnswer q = .ok a := by
  cases q with
  | obj fs =>
    unfold resolveAnswer at h
    unfold extractAnswer
    cases ho : dictGet fs "options" with
    | none => simp [ho] at h
    | some opts =>
      cases hc : dictGet fs "correct" with
      | none => simp [ho, hc] at h
      | some corr =>
        cases opts <;> cases corr <;> simp [ho, hc] at h ⊢ <;> simp [h]
  | null => simp [resolveAnswer] at h
  | bool b => simp [resolveAnswer] at h
  | num l => simp [resolveAnswer] at h
  | str s => simp [resolveAnswer] at h
  | arr l => simp [resolveAnswer] at h

theorem extractAnswers_ok (l : List Json) (h : ∀ q ∈ l, (resolveAnswer q).isSome) :
    ∃ al, extractAnswers l = .ok al ∧ al.length = l.length ∧
      ∀ i, al.get? i = (l.get? i).bind resolveAnswer := by
  induction l with
  | nil => exact ⟨[], rfl, rfl, fun i => by cases i <;> rfl⟩
  | cons q qs ih =>
    have hq := h q (by simp)
    obtain ⟨a, ha⟩ := Option.isSome_iff_exists.mp hq
    obtain ⟨al, h1, h2, h3⟩ := ih (fun x hx => h x (by simp [hx]))
    refine ⟨a :: al, ?_, by simp [h2], ?_⟩
    · simp [extractAnswers, extractAnswer_of_resolve ha, h1]
    · intro i
      cases i with
      | zero => simp [ha]
      | succ n => simpa using h3 n

/-- C1: on a successful fetch with every question carrying an `options`
mapping whose `correct` letter is a key of it, the stored answer key has
exactly as many entries as the stored question list, and entry `i` is
`options[correct]` of question `i`. -/
theorem claim1_answer_key (prev : SessionState) (text : String) (api : ApiResult)
    (q : Json) (qs : List Json)
    (ht : ¬ text = "") (hq : (fetch_questions api).questions = q :: qs)
    (hv : ∀ x ∈ q :: qs, (resolveAnswer x).isSome) :
    ∃ al, (generateQuiz prev text api).state = ⟨q :: qs, al⟩ ∧
      al.length = (q :: qs).length ∧
      ∀ i, al.get? i = ((q :: qs).get? i).bind resolveAnswer := by
  obtain ⟨al, h1, h2, h3⟩ := extractAnswers_ok _ hv
  refine ⟨al, ?_, h2, h3⟩
  simp [generateQuiz, ht, hq, h1]

/-- C3: when the cleaned text payload does not parse as JSON, fetch returns
the empty list, surfaces the could-not-parse message, logs the raw text, and
raises nothing past its boundary. -/
theorem claim3_parse_failure (t : List Char) (h : json_loads (cleanResponse t) = none) :
    fetch_questions (.ok t) = ⟨[], [parseFailMsg], [rawLogMsg t], none⟩ := by
  simp [fetch_questions, h]

/-- C4: for a successfully parsed response object, fetch yields the empty
list with the structural-error message exactly when the `mcqs` field is
absent, not a list, or an empty list; otherwise it returns the `mcqs` list
unchanged, whatever its positive length. -/
theorem claim4_mcqs_validation (fs : List (String × Json)) :
    (dictGet fs "mcqs" = none →
      processQuizData (.obj fs) = ⟨[], [structureMsg], [], none⟩) ∧
    (∀ v, dictGet fs "mcqs" = some v → (∀ l, v ≠ Json.arr l) →
      processQuizData (.obj fs) = ⟨[], [structureMsg], [], none⟩) ∧
    (dictGet fs "mcqs" = some (Json.arr []) →
      processQuizData (.obj fs) = ⟨[], [structureMsg], [], none⟩) ∧
    (∀ q qs, dictGet fs "mcqs" = some (Json.arr (q :: qs)) →
      processQuizData (.obj fs) = ⟨q :: qs, [], [], none⟩) := by
  refine ⟨fun h => by simp [processQuizData, h], fun v hv hne => ?_,
    fun h => by simp [processQuizData, h], fun q qs h => by simp [processQuizData, h]⟩
  cases v with
  | arr l => exact absurd rfl (hne l)
  | null => simp [processQuizData, hv]
  | bool b => simp [processQuizData, hv]
  | num l => simp [processQuizData, hv]
  | str s => simp [processQuizData, hv]
  | obj g => simp [processQuizData, hv]

theorem rateLimitMsg_ne_generic (e : String) : rateLimitMsg ≠ unexpectedMsg e := by
  intro h
  have hR : rateLimitMsg.data.head? = some ('🚦') := rfl
  have hA : (unexpectedMsg e).data.head? = some ('A') := rfl
  rw [h, hA] at hR
  exact absurd (Option.some.inj hR) (by decide)

/-- C5: a rate-limit error from the service surfaces the rate-limit message
(distinct from every generic error message), returns the empty list after a
single API call with no retry, and — the state having been reset before the
call — leaves the display in the no-quiz state. -/
theorem claim5_rate_limit (prev : SessionState) (text : String) (d : String)
    (h : ¬ text = "") :
    (fetch_questions (.resourceExhausted d)).questions = [] ∧
    generateQuiz prev text (.resourceExhausted d) =
      ⟨⟨[], []⟩, [rateLimitMsg], [rateLogMsg d], 1, none⟩ ∧
    (∀ e, rateLimitMsg ≠ unexpectedMsg e) ∧
    showsQuiz (generateQuiz prev text (.resourceExhausted d)).state = false := by
  refine ⟨rfl, ?_, rateLimitMsg_ne_generic, ?_⟩ <;>
    simp [generateQuiz, h, fetch_questions, showsQuiz]

/-- C7: submitting with any question unanswered computes no score, shows the
unanswered-questions warning, and leaves the session state untouched. -/
theorem claim7_unanswered (s : SessionState) (sels : List (Option Json))
    (h : sels.any (fun o => o.isNone) = true) :
    submitQuiz s sels = ⟨s, [unansweredMsg], none, none⟩ := by
  simp [submitQuiz, h]

/-- C7 witness: a concrete submission with one unanswered question. -/
theorem claim7_unanswered_witness :
    submitQuiz ⟨[Json.null], [Json.null]⟩ [none] =
      ⟨⟨[Json.null], [Json.null]⟩, [unansweredMsg], none, none⟩ :=
  claim7_unanswered ⟨[Json.null], [Json.null]⟩ [none] rfl

/-- C8 counterexample: generating with empty text does not leave the prior
quiz untouched — the stored question list is cleared by the reset that runs
before the empty-text check. -/
theorem claim8_counterexample :
    ¬ (generateQuiz ⟨[Json.null], [Json.null]⟩ "" (ApiResult.blocked ("r"))).state =
        ⟨[Json.null], [Json.null]⟩ := by
  intro h
  have h2 := congrArg (fun s => s.questions.length) h
  exact absurd h2 (by decide)

/-- C8 (amended): generating with empty text shows the error message and
makes no API call, but the session state is reset to empty rather than kept:
a previously generated quiz and its answer key are discarded. -/
theorem claim8_empty_input_amended (prev : SessionState) (api : ApiResult) :
    generateQuiz prev "" api = ⟨⟨[], []⟩, [emptyTextMsg], [], 0, none⟩ := rfl

/-- C9: if a fetched question is missing an expected field, so that answer
extraction fails with a `KeyError`, the partially built state is cleared
entirely — both stored lists end up empty and no quiz form is rendered. -/
theorem claim9_extraction_clears (prev : SessionState) (text : String)
    (api : ApiResult) (d : String) (q : Json) (qs : List Json)
    (ht : ¬ text = "") (hq : (fetch_questions api).questions = q :: qs)
    (he : extractAnswers (q :: qs) = .error (.keyError d)) :
    (generateQuiz prev text api).state = ⟨[], []⟩ ∧
    showsQuiz (generateQuiz prev text api).state = false := by
  constructor <;> simp [generateQuiz, ht, hq, he, showsQuiz]

theorem selAt_tail (sels : List (Option Json)) (i : Nat) :
    selAt sels (i + 1) = selAt sels.tail i := by
  cases sels <;> simp [selAt]

theorem selAt_zero (sels : List (Option Json)) : selAt sels 0 = sels.headD none := by
  cases sels <;> simp [selAt]

theorem scoreGo_count (qs : List Json) (sels : List (Option Json)) (ans : List Json)
    (h : qs.length ≤ ans.length) (hm : ∀ q ∈ qs, hasMcq q = true) :
    scoreGo qs sels ans =
      .ok ((List.range qs.length).countP
        (fun i => answersMatch (selAt sels i) (ans.getD i Json.null))) := by
  induction qs generalizing sels ans with
  | nil => simp [scoreGo]
  | cons q qs ih =>
    cases ans with
    | nil => simp at h
    | cons a ans' =>
      have hq := hm q (by simp)
      cases q with
      | obj fs =>
        simp only [hasMcq] at hq
        cases hmc : dictGet fs "mcq" with
        | none =>
          rw [hmc] at hq
          simp at hq
        | some m =>
          simp only [scoreGo, hmc]
          rw [ih sels.tail ans' (by simpa using h) (fun x hx => hm x (by simp [hx]))]
          simp only [List.length_cons, List.range_succ_eq_map, List.countP_cons,
            List.countP_map, Function.comp_def, selAt_tail, selAt_zero, List.getD_cons_succ,
            List.getD_cons_zero]
      | null => simp [hasMcq] at hq
      | bool b => simp [hasMcq] at hq
      | num l => simp [hasMcq] at hq
      | str s2 => simp [hasMcq] at hq
      | arr l => simp [hasMcq] at hq

/-- C6: on an all-answered submission over questions of the `QuizQuestion`
shape (each a mapping carrying an `mcq` key, so the subheader subscript of
line 173 succeeds), the score is the number of indices at which the
selection matches the answer-key entry under case-insensitive
whitespace-trimmed equality, and the result shows that count out of the
number of questions. -/
theorem claim6_scoring (s : SessionState) (sels : List (Option Json))
    (h1 : ∀ o ∈ sels, o.isSome)
    (h2 : s.corrected_answers.length = s.questions.length)
    (h3 : ∀ q ∈ s.questions, hasMcq q = true) :
    submitQuiz s sels =
      ⟨s,
        markLines s.questions.length sels s.corrected_answers ++
          [finalScoreMsg
            ((List.range s.questions.length).countP
              (fun i => answersMatch (selAt sels i) (s.corrected_answers.getD i Json.null)))
            s.questions.length],
        some
          ((List.range s.questions.length).countP
              (fun i => answersMatch (selAt sels i) (s.corrected_answers.getD i Json.null)),
            s.questions.length),
        none⟩ := by
  have hno : sels.any (fun o => o.isNone) = false := by
    rw [List.any_eq_false]
    intro o ho
    simpa [Option.isNone_iff_eq_none] using Option.isSome_iff_ne_none.mp (h1 o ho)
  have hc := scoreGo_count s.questions sels s.corrected_answers (le_of_eq h2.symm) h3
  simp [submitQuiz, hno, hc]

theorem extractAnswer_benign (q : Json) (h : benign q = true) :
    extractAnswer q ≠ Except.error ExtractErr.typeError := by
  intro hcon
  cases q with
  | obj fs =>
    simp only [benign, Bool.and_eq_true] at h
    obtain ⟨⟨h0, h1⟩, h2⟩ := h
    cases ho : dictGet fs "options" with
    | none => simp [extractAnswer, ho] at hcon
    | some opts =>
      rw [ho] at h1
      cases hc : dictGet fs "correct" with
      | none => simp [extractAnswer, ho, hc] at hcon
      | some corr =>
        rw [hc] at h2
        cases opts with
        | obj ofs =>
          cases corr with
          | str k =>
            cases hk : dictGet ofs k with
            | none => simp [extractAnswer, ho, hc, hk] at hcon
            | some v => simp [extractAnswer, ho, hc, hk] at hcon
          | null => simp [extractAnswer, ho, hc] at hcon
          | bool b => simp [extractAnswer, ho, hc] at hcon
          | num lx => simp [extractAnswer, ho, hc] at hcon
          | arr l2 => simp at h2
          | obj f2 => simp at h2
        | null => simp at h1
        | bool b => simp at h1
        | num lx => simp at h1
        | str s2 => simp at h1
        | arr l2 => simp at h1
  | null => simp [benign] at h
  | bool b => simp [benign] at h
  | num l => simp [benign] at h
  | str s => simp [benign] at h
  | arr l => simp [benign] at h

theorem extractAnswers_benign (l : List Json) (h : ∀ q ∈ l, benign q = true) :
    (∃ al, extractAnswers l = .ok al ∧ al.length = l.length) ∨
    (∃ d, extractAnswers l = .error (.keyError d)) := by
  induction l with
  | nil => exact Or.inl ⟨[], rfl, rfl⟩
  | cons q qs ih =>
    have hq := extractAnswer_benign q (h q (by simp))
    rcases hea : extractAnswer q with e | a
    · cases e with
      | keyError d => exact Or.inr ⟨d, by simp [extractAnswers, hea]⟩
      | typeError => exact absurd hea hq
    · rcases ih (fun x hx => h x (by simp [hx])) with ⟨al, hh1, hh2⟩ | ⟨d, hh1⟩
      · exact Or.inl ⟨a :: al, by simp [extractAnswers, hea, hh1], by simp [hh2]⟩
      · exact Or.inr ⟨d, by simp [extractAnswers, hea, hh1]⟩

theorem benign_hasMcq (q : Json) (h : benign q = true) : hasMcq q = true := by
  cases q with
  | obj fs =>
    simp only [benign, Bool.and_eq_true] at h
    simp [hasMcq, h.1]
  | null => simp [benign] at h
  | bool b => simp [benign] at h
  | num l => simp [benign] at h
  | str s2 => simp [benign] at h
  | arr l => simp [benign] at h

theorem submit_raised_none (s : SessionState)
    (h : s.corrected_answers.length = s.questions.length)
    (hm : ∀ q ∈ s.questions, hasMcq q = true)
    (sels : List (Option Json)) :
    (submitQuiz s sels).raised = none := by
  by_cases hn : sels.any (fun o => o.isNone) = true
  · simp [submitQuiz, hn]
  · have hc := scoreGo_count s.questions sels s.corrected_answers (le_of_eq h.symm) hm
    simp [submitQuiz, hn, hc]

/-- C10 counterexample: a fetched question that is a mapping, but whose
`options` value is a string, makes answer extraction raise `TypeError`,
which line 137 does not catch — the stored question list keeps one entry
while the answer key stays empty, breaking the claimed invariant. -/
theorem claim10_counterexample :
    (∀ q ∈ (fetch_questions
        (.ok (("\x7b\"mcqs\": [\x7b\"options\": \"x\", \"correct\": \"a\"\x7d]\x7d").data))).questions,
      isObjB q = true) ∧
    (generateQuiz ⟨[], []⟩ ("t")
        (.ok (("\x7b\"mcqs\": [\x7b\"options\": \"x\", \"correct\": \"a\"\x7d]\x7d").data))).state.questions.length = 1 ∧
    (generateQuiz ⟨[], []⟩ ("t")
        (.ok (("\x7b\"mcqs\": [\x7b\"options\": \"x\", \"correct\": \"a\"\x7d]\x7d").data))).state.corrected_answers.length = 0 ∧
    (generateQuiz ⟨[], []⟩ ("t")
        (.ok (("\x7b\"mcqs\": [\x7b\"options\": \"x\", \"correct\": \"a\"\x7d]\x7d").data))).raised =
      some PyExn.typeError := by
  exact ⟨by decide, by decide, by decide, by decide⟩

/-- C10 (amended): provided every fetched question is a mapping carrying an
`mcq` key, whose `options` value (when present) is itself a mapping and
whose `correct` value (when present) is hashable, every operation of the
generate flow — initialization, reset, successful extraction, or `KeyError`
failure — leaves the answer key exactly as long as the question list,
nothing escapes `main` there or in any later submission, and scoring never
hits an out-of-range answer-key index. -/
theorem claim10_amended (prev : SessionState) (text : String) (api : ApiResult)
    (hb : ∀ q ∈ (fetch_questions api).questions, benign q = true) :
    initState.corrected_answers.length = initState.questions.length ∧
    (generateQuiz prev text api).state.corrected_answers.length =
      (generateQuiz prev text api).state.questions.length ∧
    (generateQuiz prev text api).raised = none ∧
    ∀ sels, (submitQuiz (generateQuiz prev text api).state sels).raised = none := by
  have key : (generateQuiz prev text api).state.corrected_answers.length =
      (generateQuiz prev text api).state.questions.length ∧
      (generateQuiz prev text api).raised = none := by
    by_cases htext : text = ""
    · simp [generateQuiz, htext]
    · cases hqs : (fetch_questions api).questions with
      | nil => simp [generateQuiz, htext, hqs]
      | cons q qs =>
        rcases extractAnswers_benign _ (hqs ▸ hb) with ⟨al, hh1, hh2⟩ | ⟨d, hh1⟩
        · simp [generateQuiz, htext, hqs, hh1, hh2]
        · simp [generateQuiz, htext, hqs, hh1]
  have hmq : ∀ x ∈ (generateQuiz prev text api).state.questions, hasMcq x = true := by
    intro x hx
    by_cases htext : text = ""
    · simp [generateQuiz, htext] at hx
    · cases hqs : (fetch_questions api).questions with
      | nil => simp [generateQuiz, htext, hqs] at hx
      | cons q qs =>
        rcases extractAnswers_benign _ (hqs ▸ hb) with ⟨al, hh1, hh2⟩ | ⟨d, hh1⟩
        · have hstate : (generateQuiz prev text api).state.questions = q :: qs := by
            simp [generateQuiz, htext, hqs, hh1]
          rw [hstate] at hx
          refine benign_hasMcq x (hb x ?_)
          rw [hqs]
          exact hx
        · have hstate : (generateQuiz prev text api).state.questions = [] := by
            simp [generateQuiz, htext, hqs, hh1]
          rw [hstate] at hx
          simp at hx
  exact ⟨rfl, key.1, key.2, fun sels => submit_raised_none _ key.1 hmq sels⟩

/-- C1 witness: a concrete successful fetch with one valid question. -/
theorem claim1_answer_key_witness :
    ∃ al,
      (generateQuiz ⟨[], []⟩ ("t")
          (.ok (("\x7b\"mcqs\": [\x7b\"mcq\": \"m\", \"options\": \x7b\"a\": \"Paris\"\x7d, \"correct\": \"a\"\x7d]\x7d").data))).state =
        ⟨[Json.obj [("mcq", Json.str "m"), ("options", Json.obj [("a", Json.str "Paris")]),
            ("correct", Json.str "a")]], al⟩ ∧
      al.length = [Json.obj [("mcq", Json.str "m"), ("options", Json.obj [("a", Json.str "Paris")]),
            ("correct", Json.str "a")]].length ∧
      ∀ i, al.get? i =
        ([Json.obj [("mcq", Json.str "m"), ("options", Json.obj [("a", Json.str "Paris")]),
            ("correct", Json.str "a")]].get? i).bind resolveAnswer :=
  claim1_answer_key ⟨[], []⟩ ("t")
    (.ok (("\x7b\"mcqs\": [\x7b\"mcq\": \"m\", \"options\": \x7b\"a\": \"Paris\"\x7d, \"correct\": \"a\"\x7d]\x7d").data))
    (Json.obj [("mcq", Json.str "m"), ("options", Json.obj [("a", Json.str "Paris")]),
      ("correct", Json.str "a")]) []
    (by decide) rfl (by decide)

/-- C3 witness: a concrete non-JSON payload. -/
theorem claim3_parse_failure_witness :
    fetch_questions (.ok (("not json").data)) =
      ⟨[], [parseFailMsg], [rawLogMsg (("not json").data)], none⟩ :=
  claim3_parse_failure (("not json").data) rfl

/-- C4 witness: a one-element `mcqs` list is returned unchanged. -/
theorem claim4_mcqs_validation_witness :
    processQuizData (.obj [(("mcqs" : String), Json.arr [Json.null])]) =
      ⟨[Json.null], [], [], none⟩ :=
  (claim4_mcqs_validation [(("mcqs" : String), Json.arr [Json.null])]).2.2.2 Json.null [] rfl

/-- C5 witness: a rate-limit failure on a concrete generate attempt. -/
theorem claim5_rate_limit_witness :
    (fetch_questions (.resourceExhausted ("quota"))).questions = [] ∧
    generateQuiz ⟨[Json.null], []⟩ ("t") (.resourceExhausted ("quota")) =
      ⟨⟨[], []⟩, [rateLimitMsg], [rateLogMsg ("quota")], 1, none⟩ ∧
    (∀ e, rateLimitMsg ≠ unexpectedMsg e) ∧
    showsQuiz (generateQuiz ⟨[Json.null], []⟩ ("t") (.resourceExhausted ("quota"))).state = false :=
  claim5_rate_limit ⟨[Json.null], []⟩ ("t") ("quota") (by decide)

/-- C6 witness: the spec's scenario — three identical Paris questions, the
correct option selected each time, scored three out of three. -/
theorem claim6_scoring_witness :
    (submitQuiz
        ⟨[Json.obj [("mcq", Json.str "What is the capital of France?"),
            ("options", Json.obj [("a", Json.str "Paris"), ("b", Json.str "Lyon"),
              ("c", Json.str "Nice"), ("d", Json.str "Lille")]),
            ("correct", Json.str "a")],
          Json.obj [("mcq", Json.str "What is the capital of France?"),
            ("options", Json.obj [("a", Json.str "Paris"), ("b", Json.str "Lyon"),
              ("c", Json.str "Nice"), ("d", Json.str "Lille")]),
            ("correct", Json.str "a")],
          Json.obj [("mcq", Json.str "What is the capital of France?"),
            ("options", Json.obj [("a", Json.str "Paris"), ("b", Json.str "Lyon"),
              ("c", Json.str "Nice"), ("d", Json.str "Lille")]),
            ("correct", Json.str "a")]],
          [Json.str "Paris", Json.str "Paris", Json.str "Paris"]⟩
        [some (Json.str "Paris"), some (Json.str "Paris"), some (Json.str "Paris")]).score =
      some (3, 3) := by
  rw [claim6_scoring _ _ (by decide) (by decide) (by decide)]
  rfl

/-- C9 witness: a fetched question with no `options` key clears the state. -/
theorem claim9_extraction_clears_witness :
    (generateQuiz ⟨[], []⟩ ("t")
        (.ok (("\x7b\"mcqs\": [\x7b\"mcq\": \"q\"\x7d]\x7d").data))).state = ⟨[], []⟩ ∧
    showsQuiz (generateQuiz ⟨[], []⟩ ("t")
        (.ok (("\x7b\"mcqs\": [\x7b\"mcq\": \"q\"\x7d]\x7d").data))).state = false :=
  claim9_extraction_clears ⟨[], []⟩ ("t")
    (.ok (("\x7b\"mcqs\": [\x7b\"mcq\": \"q\"\x7d]\x7d").data)) ("'options'")
    (Json.obj [("mcq", Json.str "q")]) [] (by decide) rfl rfl

/-- C10 (amended) witness: the invariant at a concrete generate attempt. -/
theorem claim10_amended_witness :
    initState.corrected_answers.length = initState.questions.length ∧
    (generateQuiz ⟨[], []⟩ ("t") (.blocked ("safety"))).state.corrected_answers.length =
      (generateQuiz ⟨[], []⟩ ("t") (.blocked ("safety"))).state.questions.length ∧
    (generateQuiz ⟨[], []⟩ ("t") (.blocked ("safety"))).raised = none ∧
    ∀ sels, (submitQuiz (generateQuiz ⟨[], []⟩ ("t") (.blocked ("safety"))).state sels).raised = none :=
  claim10_amended ⟨[], []⟩ ("t") (.blocked ("safety")) (by decide)

theorem jws_pySpace (c : Char) (h : jws c = true) : isPySpace c = true := by
  simp [jws] at h
  rcases h with ((h | h) | h) | h <;> simp [isPySpace, h]

theorem pySpace_false_jws (c : Char) (h : isPySpace c = false) : jws c = false := by
  by_contra hc
  rw [Bool.not_eq_false] at hc
  rw [jws_pySpace c hc] at h
  simp at h

theorem dropWhile_pySpace_self (l : List Char) (h : headNotWs l = true) :
    l.dropWhile isPySpace = l := by
  cases l with
  | nil => rfl
  | cons c r =>
    simp [headNotWs] at h
    simp [List.dropWhile_cons, h]

theorem dropWhile_jws_self (l : List Char) (h : headNotWs l = true) :
    l.dropWhile jws = l := by
  cases l with
  | nil => rfl
  | cons c r =>
    simp [headNotWs] at h
    simp [List.dropWhile_cons, pySpace_false_jws c h]

theorem dropWhile_append_all (p : Char → Bool) (w x : List Char)
    (hw : ∀ c ∈ w, p c = true) : (w ++ x).dropWhile p = x.dropWhile p := by
  induction w with
  | nil => rfl
  | cons c w' ih =>
    have hc := hw c (by simp)
    simp [List.dropWhile_cons, hc, ih (fun d hd => hw d (by simp [hd]))]

theorem takeWhile_append_eq (p : Char → Bool) (a b : List Char)
    (ha : ∀ c ∈ a, p c = true) (hb : ∀ c, b.head? = some c → p c = false) :
    (a ++ b).takeWhile p = a ∧ (a ++ b).dropWhile p = b := by
  induction a with
  | nil =>
    cases b with
    | nil => exact ⟨rfl, rfl⟩
    | cons c r =>
      have hc := hb c rfl
      constructor
      · simp [List.takeWhile_cons, hc]
      · simp [List.dropWhile_cons, hc]
  | cons c a' ih =>
    have hc := ha c (by simp)
    obtain ⟨h1, h2⟩ := ih (fun d hd => ha d (by simp [hd]))
    constructor
    · simp [List.takeWhile_cons, hc, h1]
    · simp [List.dropWhile_cons, hc, h2]

theorem headNotWs_reverse (l : List Char) : headNotWs l.reverse = lastNotWs l := by
  simp [headNotWs, lastNotWs, List.head?_reverse]

theorem pyStrip_of_ends (l : List Char) (h1 : headNotWs l = true) (h2 : lastNotWs l = true) :
    pyStrip l = l := by
  unfold pyStrip
  rw [dropWhile_pySpace_self l h1,
    dropWhile_pySpace_self l.reverse (by rw [headNotWs_reverse]; exact h2),
    List.reverse_reverse]

theorem wrap_headNotWs (p : List Char) : headNotWs (wrapFence p) = true := rfl

theorem wrap_lastNotWs (p : List Char) : lastNotWs (wrapFence p) = true := by
  unfold lastNotWs wrapFence
  rw [List.getLast?_append]
  rfl

theorem pyStrip_wrap (p : List Char) : pyStrip (wrapFence p) = wrapFence p :=
  pyStrip_of_ends _ (wrap_headNotWs p) (wrap_lastNotWs p)

theorem removeLeading_wrap (p : List Char) :
    removeLeading (("```json").data) (wrapFence p) = p ++ ("```").data := by
  unfold removeLeading wrapFence
  rw [List.append_assoc]
  rw [if_pos (List.take_left (("```json").data) (p ++ ("```").data)),
    List.drop_left]

theorem removeTrailing_append (p : List Char) :
    removeTrailing (("```").data) (p ++ ("```").data) = p := by
  unfold removeTrailing
  have hl : (p ++ ("```").data).length - (("```").data).length = p.length := by simp
  rw [hl]
  rw [if_pos (List.drop_left p (("```").data)), List.take_left]

theorem clean_wrap (p : List Char) : cleanResponse (wrapFence p) = pyStrip p := by
  unfold cleanResponse
  rw [pyStrip_wrap, removeLeading_wrap, removeTrailing_append]
theorem pStr_ext (cs : List Char) :
    ∀ s rest, pStr cs = some (s, rest) →
    ∃ u, cs = u ++ rest ∧ u.getLast? = some ('"') ∧
      ∀ tail, pStr (u ++ tail) = some (s, tail) := by
  induction cs using pStr.induct with
  | case1 =>
    intro s rest h
    rw [pStr.eq_1] at h
    exact Option.noConfusion h
  | case2 r₂ =>
    intro s rest h
    rw [pStr.eq_def] at h
    simp at h
    obtain ⟨hs, hr⟩ := h
    refine ⟨['"'], by simp [hr], rfl, fun tail => ?_⟩
    rw [pStr.eq_def]
    simp [hs]
  | case3 hne =>
    intro s rest h
    rw [pStr.eq_def] at h
    simp at h
  | case4 h₁ h₂ h₃ h₄ r₃ a b c' d hd hc' hb ha hne ih =>
    intro s rest h
    simp [pStr, ha, hb, hc', hd, Option.map_eq_some'] at h
    obtain ⟨s₃, hp, hs⟩ := h
    obtain ⟨u₃, hu1, hu2, hu3⟩ := ih s₃ rest hp
    subst hs
    refine ⟨'\\' :: 'u' :: h₁ :: h₂ :: h₃ :: h₄ :: u₃, by simp [hu1], ?_, fun tail => ?_⟩
    · rw [show ('\\' :: 'u' :: h₁ :: h₂ :: h₃ :: h₄ :: u₃) =
        ['\\', 'u', h₁, h₂, h₃, h₄] ++ u₃ from rfl, List.getLast?_append, hu2]
      rfl
    · simp only [List.cons_append]
      simp [pStr, ha, hb, hc', hd, hu3 tail]
  | case5 h₁ h₂ h₃ h₄ r₃ hfail hne =>
    intro s rest h
    rw [pStr.eq_def] at h
    cases hv1 : hexVal h₁ <;> cases hv2 : hexVal h₂ <;> cases hv3 : hexVal h₃ <;>
      cases hv4 : hexVal h₄ <;> simp [hv1, hv2, hv3, hv4] at h
    exact (hfail _ _ _ _ hv1 hv2 hv3 hv4).elim
  | case6 r₂ hshape hne =>
    intro s rest h
    rw [pStr.eq_def] at h
    rcases r₂ with _ | ⟨a1, _ | ⟨a2, _ | ⟨a3, _ | ⟨a4, rr⟩⟩⟩⟩
    · simp at h
    · simp at h
    · simp at h
    · simp at h
    · exact (hshape a1 a2 a3 a4 rr rfl).elim
  | case7 e r₂ hneu ec hec hne ih =>
    intro s rest h
    rw [pStr.eq_def] at h
    simp [hneu, hec, Option.map_eq_some'] at h
    obtain ⟨s₂, hp, hs⟩ := h
    obtain ⟨u₂, hu1, hu2, hu3⟩ := ih s₂ rest hp
    subst hs
    refine ⟨'\\' :: e :: u₂, by simp [hu1], ?_, fun tail => ?_⟩
    · rw [show ('\\' :: e :: u₂) = ['\\', e] ++ u₂ from rfl, List.getLast?_append, hu2]
      rfl
    · simp only [List.cons_append]
      rw [pStr.eq_def]
      simp [hneu, hec, hu3 tail]
  | case8 e r₂ hneu hec hne =>
    intro s rest h
    rw [pStr.eq_def] at h
    simp [hneu, hec] at h
  | case9 e r₂ h1 h2 h3 =>
    intro s rest h
    rw [pStr.eq_def] at h
    simp [h1, h2, h3] at h
  | case10 e r₂ h1 h2 h3 ih =>
    intro s rest h
    rw [pStr.eq_def] at h
    simp [h1, h2, h3, Option.map_eq_some'] at h
    obtain ⟨s₂, hp, hs⟩ := h
    obtain ⟨u₂, hu1, hu2, hu3⟩ := ih s₂ rest hp
    subst hs
    refine ⟨e :: u₂, by simp [hu1], ?_, fun tail => ?_⟩
    · rw [show (e :: u₂) = [e] ++ u₂ from rfl, List.getLast?_append, hu2]
      rfl
    · simp only [List.cons_append]
      rw [pStr.eq_def]
      simp [h1, h2, h3, hu3 tail]

theorem digit_ne (c d : Char) (h : c.isDigit = true) (hd : d.isDigit = false) : ¬ c = d := by
  intro he
  rw [he, hd] at h
  exact Bool.false_ne_true h

theorem digit_not_pySpace (c : Char) (h : c.isDigit = true) : isPySpace c = false := by
  simp only [isPySpace, Bool.or_eq_false_iff]
  exact ⟨⟨⟨⟨⟨by simp [digit_ne c (' ') h (by decide)],
    by simp [digit_ne c ('\t') h (by decide)]⟩,
    by simp [digit_ne c ('\n') h (by decide)]⟩,
    by simp [digit_ne c ('\r') h (by decide)]⟩,
    by simp [digit_ne c ('\x0b') h (by decide)]⟩,
    by simp [digit_ne c ('\x0c') h (by decide)]⟩

theorem digitSafe_head (l : List Char) (h : digitSafe l = true) :
    ∀ c, l.head? = some c → c.isDigit = false := by
  intro c hc
  unfold digitSafe at h
  rw [hc] at h
  simpa using h

theorem numSafe_head (l : List Char) (h : numSafe l = true) :
    ∀ c, l.head? = some c → c.isDigit = false ∧ ¬c = '.' ∧ ¬c = 'e' ∧ ¬c = 'E' := by
  intro c hc
  unfold numSafe at h
  rw [hc] at h
  simp at h
  exact ⟨h.1.1.1, h.1.1.2, h.1.2, h.2⟩

theorem all_digit_lastNotWs (l : List Char) (hne : l ≠ []) (hall : ∀ c ∈ l, c.isDigit = true) :
    lastNotWs l = true := by
  unfold lastNotWs
  rw [List.getLast?_eq_getLast l hne]
  simp [digit_not_pySpace _ (hall _ (List.getLast_mem hne))]

theorem lastNotWs_append (A B : List Char) (h : lastNotWs B = true) :
    lastNotWs (A ++ B) = true := by
  unfold lastNotWs at h ⊢
  rw [List.getLast?_append]
  cases hB : B.getLast? with
  | none => rw [hB] at h; simp at h
  | some c =>
    rw [hB] at h
    exact h

theorem pIntPart_ext (cs ip r₁ : List Char) (h : pIntPart cs = some (ip, r₁)) :
    cs = ip ++ r₁ ∧ ip ≠ [] ∧ (∀ c ∈ ip, c.isDigit = true) ∧
      ∀ tail, digitSafe tail = true → pIntPart (ip ++ tail) = some (ip, tail) := by
  cases cs with
  | nil => simp [pIntPart] at h
  | cons c r =>
    by_cases h0 : c = '0'
    · subst h0
      simp [pIntPart] at h
      obtain ⟨hip, hr⟩ := h
      subst hip hr
      exact ⟨rfl, by simp, by simp, fun tail _ => by simp [pIntPart]⟩
    · by_cases hd : c.isDigit
      · simp [pIntPart, h0, hd] at h
        obtain ⟨hip, hr⟩ := h
        subst hip hr
        refine ⟨by simp [List.takeWhile_append_dropWhile], by simp, ?_, fun tail ht => ?_⟩
        · intro x hx
          rcases List.mem_cons.mp hx with hx | hx
          · exact hx ▸ hd
          · exact List.mem_takeWhile_imp hx
        · have hall : ∀ x ∈ r.takeWhile Char.isDigit, Char.isDigit x = true :=
            fun x hx => List.mem_takeWhile_imp hx
          obtain ⟨htw, hdw⟩ :=
            takeWhile_append_eq Char.isDigit (r.takeWhile Char.isDigit) tail hall
              (digitSafe_head tail ht)
          simp [pIntPart, h0, hd, htw, hdw]
      · simp [pIntPart, h0, hd] at h

theorem pFrac_split (cs : List Char) :
    cs = (pFrac cs).1 ++ (pFrac cs).2 ∧
    ((pFrac cs).1 = [] ∨
      ∃ ds, (pFrac cs).1 = '.' :: ds ∧ ds ≠ [] ∧ ∀ c ∈ ds, c.isDigit = true) := by
  cases cs with
  | nil => exact ⟨rfl, Or.inl rfl⟩
  | cons c r =>
    by_cases hc : c = '.'
    · subst hc
      cases htw : r.takeWhile Char.isDigit with
      | nil => exact ⟨by simp [pFrac, htw], Or.inl (by simp [pFrac, htw])⟩
      | cons d ds' =>
        have h1 : pFrac ('.' :: r) = ('.' :: d :: ds', r.dropWhile Char.isDigit) := by
          simp [pFrac, htw]
        refine ⟨?_, Or.inr ⟨d :: ds', by rw [h1], by simp,
          fun x hx => List.mem_takeWhile_imp (by rw [htw]; exact hx)⟩⟩
        have h2 : r = (d :: ds') ++ r.dropWhile Char.isDigit := by
          rw [← htw]
          exact (List.takeWhile_append_dropWhile Char.isDigit r).symm
        rw [h1]
        conv_lhs => rw [h2]
        rfl
    · have h1 : pFrac (c :: r) = ([], c :: r) := by simp [pFrac, hc]
      rw [h1]
      exact ⟨rfl, Or.inl rfl⟩

theorem pFrac_none (l : List Char) (h : ∀ c, l.head? = some c → ¬ c = '.') :
    pFrac l = ([], l) := by
  cases l with
  | nil => rfl
  | cons c r => simp [pFrac, h c rfl]

theorem pFrac_dot (ds tail : List Char) (hne : ds ≠ [])
    (hall : ∀ c ∈ ds, c.isDigit = true)
    (htail : ∀ c, tail.head? = some c → c.isDigit = false) :
    pFrac ('.' :: (ds ++ tail)) = ('.' :: ds, tail) := by
  obtain ⟨htw, hdw⟩ := takeWhile_append_eq Char.isDigit ds tail hall htail
  cases hds : ds with
  | nil => exact absurd hds hne
  | cons d ds' =>
    subst hds
    simp only [List.cons_append] at htw hdw
    simp [pFrac, htw, hdw]

theorem pExp_split (cs : List Char) :
    cs = (pExp cs).1 ++ (pExp cs).2 ∧
    ((pExp cs).1 = [] ∨
      ∃ ec ds, (ec = 'e' ∨ ec = 'E') ∧ ds ≠ [] ∧ (∀ c ∈ ds, c.isDigit = true) ∧
        ((pExp cs).1 = ec :: ds ∨
          ∃ sg, (sg = '+' ∨ sg = '-') ∧ (pExp cs).1 = ec :: sg :: ds)) := by
  cases cs with
  | nil => exact ⟨rfl, Or.inl rfl⟩
  | cons e r =>
    by_cases he : e = 'e' ∨ e = 'E'
    · cases r with
      | nil => exact ⟨by simp [pExp, he], Or.inl (by simp [pExp, he])⟩
      | cons s r₂ =>
        by_cases hs : s = '+' ∨ s = '-'
        · cases htw : r₂.takeWhile Char.isDigit with
          | nil =>
            exact ⟨by simp [pExp, he, hs, htw], Or.inl (by simp [pExp, he, hs, htw])⟩
          | cons d ds' =>
            have h1 : pExp (e :: s :: r₂) = (e :: s :: d :: ds', r₂.dropWhile Char.isDigit) := by
              simp [pExp, he, hs, htw]
            refine ⟨?_, Or.inr ⟨e, d :: ds', he, by simp,
              fun x hx => List.mem_takeWhile_imp (by rw [htw]; exact hx),
              Or.inr ⟨s, hs, by rw [h1]⟩⟩⟩
            have h2 : r₂ = (d :: ds') ++ r₂.dropWhile Char.isDigit := by
              rw [← htw]
              exact (List.takeWhile_append_dropWhile Char.isDigit r₂).symm
            rw [h1]
            conv_lhs => rw [h2]
            rfl
        · cases htw : (s :: r₂).takeWhile Char.isDigit with
          | nil =>
            exact ⟨by simp [pExp, he, hs, htw], Or.inl (by simp [pExp, he, hs, htw])⟩
          | cons d ds' =>
            have h1 : pExp (e :: s :: r₂) = (e :: d :: ds', (s :: r₂).dropWhile Char.isDigit) := by
              simp [pExp, he, hs, htw]
            refine ⟨?_, Or.inr ⟨e, d :: ds', he, by simp,
              fun x hx => List.mem_takeWhile_imp (by rw [htw]; exact hx),
              Or.inl (by rw [h1])⟩⟩
            have h2 : s :: r₂ = (d :: ds') ++ (s :: r₂).dropWhile Char.isDigit := by
              rw [← htw]
              exact (List.takeWhile_append_dropWhile Char.isDigit (s :: r₂)).symm
            rw [h1]
            conv_lhs => rw [h2]
            rfl
    · exact ⟨by simp [pExp, he], Or.inl (by simp [pExp, he])⟩

theorem pExp_none (l : List Char) (h : ∀ c, l.head? = some c → ¬(c = 'e' ∨ c = 'E')) :
    pExp l = ([], l) := by
  cases l with
  | nil => rfl
  | cons c r => simp [pExp, h c rfl]

theorem pExp_noSign (ec : Char) (ds tail : List Char) (he : ec = 'e' ∨ ec = 'E')
    (hne : ds ≠ []) (hall : ∀ c ∈ ds, c.isDigit = true)
    (htail : ∀ c, tail.head? = some c → c.isDigit = false) :
    pExp (ec :: (ds ++ tail)) = (ec :: ds, tail) := by
  obtain ⟨htw, hdw⟩ := takeWhile_append_eq Char.isDigit ds tail hall htail
  cases hds : ds with
  | nil => exact absurd hds hne
  | cons d ds' =>
    subst hds
    have hd : d.isDigit = true := hall d (by simp)
    have hsp : ¬ (d = '+' ∨ d = '-') := by
      rintro (h | h)
      · exact digit_ne d ('+') hd (by decide) h
      · exact digit_ne d ('-') hd (by decide) h
    simp only [List.cons_append] at htw hdw
    simp [pExp, he, hsp, htw, hdw]

theorem pExp_sign (ec sg : Char) (ds tail : List Char) (he : ec = 'e' ∨ ec = 'E')
    (hs : sg = '+' ∨ sg = '-') (hne : ds ≠ []) (hall : ∀ c ∈ ds, c.isDigit = true)
    (htail : ∀ c, tail.head? = some c → c.isDigit = false) :
    pExp (ec :: sg :: (ds ++ tail)) = (ec :: sg :: ds, tail) := by
  obtain ⟨htw, hdw⟩ := takeWhile_append_eq Char.isDigit ds tail hall htail
  cases hds : ds with
  | nil => exact absurd hds hne
  | cons d ds' =>
    subst hds
    simp only [List.cons_append] at htw hdw
    simp [pExp, he, hs, htw, hdw]

theorem pNum_tail_parts (r₁ : List Char) (F1 F2 E1 E2 : List Char)
    (hpf : pFrac r₁ = (F1, F2)) (hpe : pExp F2 = (E1, E2))
    (hfshape : F1 = [] ∨ ∃ ds, F1 = '.' :: ds ∧ ds ≠ [] ∧ ∀ c ∈ ds, c.isDigit = true)
    (heshape : E1 = [] ∨
      ∃ ec ds, (ec = 'e' ∨ ec = 'E') ∧ ds ≠ [] ∧ (∀ c ∈ ds, c.isDigit = true) ∧
        (E1 = ec :: ds ∨ ∃ sg, (sg = '+' ∨ sg = '-') ∧ E1 = ec :: sg :: ds))
    (tail : List Char) (ht : numSafe tail = true) :
    digitSafe (F1 ++ (E1 ++ tail)) = true ∧
    pFrac (F1 ++ (E1 ++ tail)) = (F1, E1 ++ tail) ∧
    pExp (E1 ++ tail) = (E1, tail) := by
  have htailE : ∀ c, (E1 ++ tail).head? = some c → c.isDigit = false := by
    rcases heshape with hE | ⟨ec, ds, hec, hdsne, hdsall, hE1⟩
    · subst hE
      intro c hc
      exact (numSafe_head tail ht c hc).1
    · rcases hE1 with hE1 | ⟨sg, hsg, hE1⟩ <;> subst hE1 <;> intro c hc <;>
        simp at hc <;> subst hc <;>
        rcases hec with hec | hec <;> subst hec <;> decide
  have hexp : pExp (E1 ++ tail) = (E1, tail) := by
    rcases heshape with hE | ⟨ec, ds, hec, hdsne, hdsall, hE1⟩
    · subst hE
      refine pExp_none tail ?_
      intro c hc
      have := numSafe_head tail ht c hc
      rintro (he | he)
      · exact this.2.2.1 he
      · exact this.2.2.2 he
    · have htd : ∀ c, tail.head? = some c → c.isDigit = false :=
        fun c hc => (numSafe_head tail ht c hc).1
      rcases hE1 with hE1 | ⟨sg, hsg, hE1⟩ <;> subst hE1
      · exact pExp_noSign ec ds tail hec hdsne hdsall htd
      · exact pExp_sign ec sg ds tail hec hsg hdsne hdsall htd
  have hfra : pFrac (F1 ++ (E1 ++ tail)) = (F1, E1 ++ tail) := by
    rcases hfshape with hF | ⟨ds, hF1, hdsne, hdsall⟩
    · subst hF
      refine pFrac_none (E1 ++ tail) ?_
      intro c hc
      rcases heshape with hE | ⟨ec, ds, hec, hdsne, hdsall, hE1⟩
      · subst hE
        exact (numSafe_head tail ht c hc).2.1
      · rcases hE1 with hE1 | ⟨sg, hsg, hE1⟩ <;> subst hE1 <;>
          simp at hc <;> subst hc <;>
          rcases hec with hec | hec <;> subst hec <;> decide
    · subst hF1
      exact pFrac_dot ds (E1 ++ tail) hdsne hdsall htailE
  refine ⟨?_, hfra, hexp⟩
  rcases hfshape with hF | ⟨ds, hF1, hdsne, hdsall⟩
  · subst hF
    unfold digitSafe
    simp only [List.nil_append]
    cases hc : (E1 ++ tail).head? with
    | none => rfl
    | some c => simp [htailE c hc]
  · subst hF1
    rfl

theorem lastNotWs_parts (A F1 E1 : List Char) (hA : lastNotWs A = true)
    (hfshape : F1 = [] ∨ ∃ ds, F1 = '.' :: ds ∧ ds ≠ [] ∧ ∀ c ∈ ds, c.isDigit = true)
    (heshape : E1 = [] ∨
      ∃ ec ds, (ec = 'e' ∨ ec = 'E') ∧ ds ≠ [] ∧ (∀ c ∈ ds, c.isDigit = true) ∧
        (E1 = ec :: ds ∨ ∃ sg, (sg = '+' ∨ sg = '-') ∧ E1 = ec :: sg :: ds)) :
    lastNotWs ((A ++ F1) ++ E1) = true := by
  rcases heshape with hE | ⟨ec, ds, hec, hdsne, hdsall, hE1⟩
  · subst hE
    rw [List.append_nil]
    rcases hfshape with hF | ⟨ds, hF1, hdsne, hdsall⟩
    · subst hF
      rw [List.append_nil]
      exact hA
    · subst hF1
      rw [show ('.' :: ds) = ['.'] ++ ds from rfl, ← List.append_assoc]
      exact lastNotWs_append (A ++ ['.']) ds (all_digit_lastNotWs ds hdsne hdsall)
  · have hld := all_digit_lastNotWs ds hdsne hdsall
    rcases hE1 with hE1 | ⟨sg, hsg, hE1⟩ <;> subst hE1
    · rw [show (ec :: ds) = [ec] ++ ds from rfl, ← List.append_assoc]
      exact lastNotWs_append ((A ++ F1) ++ [ec]) ds hld
    · rw [show (ec :: sg :: ds) = [ec, sg] ++ ds from rfl, ← List.append_assoc]
      exact lastNotWs_append ((A ++ F1) ++ [ec, sg]) ds hld

theorem pNum_ext (cs : List Char) (v : Json) (rest : List Char)
    (h : pNum cs = some (v, rest)) :
    ∃ u, cs = u ++ rest ∧
      (∃ c0 u', u = c0 :: u' ∧
        (c0.isDigit = true ∨
          (c0 = '-' ∧ ∃ c1 u'', u' = c1 :: u'' ∧ c1.isDigit = true))) ∧
      lastNotWs u = true ∧
      ∀ tail, numSafe tail = true → pNum (u ++ tail) = some (v, tail) := by
  cases cs with
  | nil => simp [pNum] at h
  | cons c r =>
    by_cases hm : c = '-'
    · subst hm
      cases hip : pIntPart r with
      | none => simp [pNum, hip] at h
      | some pr =>
        obtain ⟨ip, r₁⟩ := pr
        obtain ⟨hsplit, hipne, hipall, hiprerun⟩ := pIntPart_ext r ip r₁ hip
        obtain ⟨F1, F2, hpf⟩ : ∃ a b, pFrac r₁ = (a, b) := ⟨_, _, rfl⟩
        obtain ⟨E1, E2, hpe⟩ : ∃ a b, pExp F2 = (a, b) := ⟨_, _, rfl⟩
        have hfs := pFrac_split r₁
        rw [hpf] at hfs
        have hes := pExp_split F2
        rw [hpe] at hes
        obtain ⟨hfeq, hfshape⟩ := hfs
        obtain ⟨heeq, heshape⟩ := hes
        have h1 : pNum ('-' :: r) =
            some (.num (String.mk (('-' :: ip) ++ F1 ++ E1)), E2) := by
          simp [pNum, hip, hpf, hpe]
        rw [h1] at h
        simp at h
        obtain ⟨hv, hrest⟩ := h
        have hlip : lastNotWs ('-' :: ip) = true := by
          rw [show ('-' :: ip) = ['-'] ++ ip from rfl]
          exact lastNotWs_append ['-'] ip (all_digit_lastNotWs ip hipne hipall)
        have hipshape : ∃ c1 ip'', ip = c1 :: ip'' ∧ c1.isDigit = true := by
          cases ip with
          | nil => exact absurd rfl hipne
          | cons c1 ip'' => exact ⟨c1, ip'', rfl, hipall c1 (by simp)⟩
        obtain ⟨c1, ip'', hipeq, hc1⟩ := hipshape
        refine ⟨('-' :: ip) ++ F1 ++ E1, ?_,
          ⟨'-', ip ++ F1 ++ E1, by simp,
            Or.inr ⟨rfl, c1, ip'' ++ F1 ++ E1, by simp [hipeq], hc1⟩⟩,
          lastNotWs_parts ('-' :: ip) F1 E1 hlip hfshape heshape, ?_⟩
        · rw [← hrest, hsplit, hfeq, heeq]
          simp [List.append_assoc]
        · intro tail ht
          obtain ⟨hds, hfra, hexp⟩ :=
            pNum_tail_parts r₁ F1 F2 E1 E2 hpf hpe hfshape heshape tail ht
          rw [show ((('-' :: ip) ++ F1 ++ E1) ++ tail) =
            '-' :: (ip ++ (F1 ++ (E1 ++ tail))) by simp]
          have hint := hiprerun (F1 ++ (E1 ++ tail)) hds
          simp [pNum, hint, hfra, hexp, ← hv]
    · cases hip : pIntPart (c :: r) with
      | none => simp [pNum, hm, hip] at h
      | some pr =>
        obtain ⟨ip, r₁⟩ := pr
        obtain ⟨hsplit, hipne, hipall, hiprerun⟩ := pIntPart_ext (c :: r) ip r₁ hip
        obtain ⟨F1, F2, hpf⟩ : ∃ a b, pFrac r₁ = (a, b) := ⟨_, _, rfl⟩
        obtain ⟨E1, E2, hpe⟩ : ∃ a b, pExp F2 = (a, b) := ⟨_, _, rfl⟩
        have hfs := pFrac_split r₁
        rw [hpf] at hfs
        have hes := pExp_split F2
        rw [hpe] at hes
        obtain ⟨hfeq, hfshape⟩ := hfs
        obtain ⟨heeq, heshape⟩ := hes
        have h1 : pNum (c :: r) =
            some (.num (String.mk (ip ++ F1 ++ E1)), E2) := by
          simp [pNum, hm, hip, hpf, hpe]
        rw [h1] at h
        simp at h
        obtain ⟨hv, hrest⟩ := h
        cases ip with
        | nil => exact absurd rfl hipne
        | cons c1 ip' =>
          simp only [List.cons_append] at hsplit
          have hc1 : c = c1 := (List.cons.injEq c r c1 (ip' ++ r₁)).mp hsplit |>.1
          subst hc1
          have hcd : c.isDigit = true := hipall c (by simp)
          refine ⟨(c :: ip') ++ F1 ++ E1, ?_,
            ⟨c, ip' ++ F1 ++ E1, by simp, Or.inl hcd⟩,
            lastNotWs_parts (c :: ip') F1 E1
              (all_digit_lastNotWs (c :: ip') (by simp) hipall) hfshape heshape, ?_⟩
          · rw [← hrest]
            have := (List.cons.injEq c r c (ip' ++ r₁)).mp hsplit |>.2
            rw [this, hfeq, heeq]
            simp [List.append_assoc]
          · intro tail ht
            obtain ⟨hds, hfra, hexp⟩ :=
              pNum_tail_parts r₁ F1 F2 E1 E2 hpf hpe hfshape heshape tail ht
            rw [show (((c :: ip') ++ F1 ++ E1) ++ tail) =
              c :: (ip' ++ (F1 ++ (E1 ++ tail))) by simp]
            have hint := hiprerun (F1 ++ (E1 ++ tail)) hds
            simp only [List.cons_append] at hint
            simp [pNum, hm, hint, hfra, hexp, ← hv]

theorem pVal_zero (cs : List Char) : pVal 0 cs = none := rfl

theorem pElems_zero (cs : List Char) : pElems 0 cs = none := rfl

theorem pMembers_zero (cs : List Char) : pMembers 0 cs = none := rfl

theorem pVal_nil (f : Nat) : pVal f [] = none := by
  cases f with
  | zero => exact pVal_zero []
  | succ f => rfl

theorem pElems_nil (f : Nat) : pElems f [] = none := by
  cases f with
  | zero => exact pElems_zero []
  | succ f =>
    rw [pElems.eq_def]
    simp [pVal_nil]

theorem pMembers_nil (f : Nat) : pMembers f [] = none := by
  cases f with
  | zero => exact pMembers_zero []
  | succ f => rfl

theorem skipWs_append_token (w : List Char) (hw : ∀ c ∈ w, jws c = true)
    (c0 : Char) (hc0 : jws c0 = false) (x : List Char) :
    skipWs (w ++ c0 :: x) = c0 :: x := by
  unfold skipWs
  rw [dropWhile_append_all jws w (c0 :: x) hw]
  simp [List.dropWhile_cons, hc0]

theorem tokenHead_not_pySpace (c : Char) (h : tokenHead c = true) : isPySpace c = false := by
  by_contra hc
  rw [Bool.not_eq_false] at hc
  simp [isPySpace] at hc
  rcases hc with ((((hc | hc) | hc) | hc) | hc) | hc <;> subst hc <;> simp [tokenHead] at h

theorem tokenHead_ne_rbracket (c : Char) (h : tokenHead c = true) : ¬ c = ']' := by
  intro he
  subst he
  simp [tokenHead] at h

theorem tokenHead_ne_rbrace (c : Char) (h : tokenHead c = true) : ¬ c = '\x7d' := by
  intro he
  subst he
  simp [tokenHead] at h

theorem tokenHead_numSafe (c : Char) (h : tokenHead c = true) (x : List Char)
    (hc : c.isDigit = false) (h1 : ¬ c = '.') (h2 : ¬ c = 'e') (h3 : ¬ c = 'E') :
    numSafe (c :: x) = true := by
  simp [numSafe, hc, h1, h2, h3]

theorem jws_numSafe (w : List Char) (hw : ∀ c ∈ w, jws c = true) (X : List Char)
    (hX : numSafe X = true) : numSafe (w ++ X) = true := by
  cases w with
  | nil => exact hX
  | cons c w' =>
    have hc := hw c (by simp)
    simp [jws] at hc
    unfold numSafe
    rcases hc with ((hc | hc) | hc) | hc <;> subst hc <;> simp

theorem pVal_succ_cons (f : Nat) (c : Char) (r : List Char) :
    pVal (f + 1) (c :: r) =
      (if c = '"' then (pStr r).map (fun p => (Json.str (String.mk p.1), p.2))
      else if c = '\x7b' then
        match skipWs r with
        | '\x7d' :: r₂ => some (.obj [], r₂)
        | cs₂ => (pMembers f cs₂).map (fun p => (.obj p.1, p.2))
      else if c = '[' then
        match skipWs r with
        | ']' :: r₂ => some (.arr [], r₂)
        | cs₂ => (pElems f cs₂).map (fun p => (.arr p.1, p.2))
      else if c = 'n' then
        match r with
        | 'u' :: 'l' :: 'l' :: r' => some (.null, r')
        | _ => none
      else if c = 't' then
        match r with
        | 'r' :: 'u' :: 'e' :: r' => some (.bool true, r')
        | _ => none
      else if c = 'f' then
        match r with
        | 'a' :: 'l' :: 's' :: 'e' :: r' => some (.bool false, r')
        | _ => none
      else if c = 'N' then
        match r with
        | 'a' :: 'N' :: r' => some (.num (String.mk ['N', 'a', 'N']), r')
        | _ => none
      else if c = 'I' then
        match r with
        | 'n' :: 'f' :: 'i' :: 'n' :: 'i' :: 't' :: 'y' :: r' =>
          some (.num (String.mk ['I', 'n', 'f', 'i', 'n', 'i', 't', 'y']), r')
        | _ => none
      else if c = '-' then
        match r with
        | 'I' :: 'n' :: 'f' :: 'i' :: 'n' :: 'i' :: 't' :: 'y' :: r' =>
          some (.num (String.mk ['-', 'I', 'n', 'f', 'i', 'n', 'i', 't', 'y']), r')
        | _ => pNum (c :: r)
      else if c.isDigit then pNum (c :: r)
      else none) := rfl

theorem pElems_succ (f : Nat) (cs : List Char) :
    pElems (f + 1) cs =
      (match pVal f cs with
      | none => none
      | some (v, r) =>
        match skipWs r with
        | ']' :: r₂ => some ([v], r₂)
        | ',' :: r₂ =>
          match pElems f (skipWs r₂) with
          | none => none
          | some (vs, r₃) => some (v :: vs, r₃)
        | _ => none) := rfl

theorem pMembers_succ (f : Nat) (cs : List Char) :
    pMembers (f + 1) cs =
      (match cs with
      | '"' :: r =>
        match pStr r with
        | none => none
        | some (k, r₁) =>
          match skipWs r₁ with
          | ':' :: r₂ =>
            match pVal f (skipWs r₂) with
            | none => none
            | some (v, r₃) =>
              match skipWs r₃ with
              | '\x7d' :: r₄ => some ([(String.mk k, v)], r₄)
              | ',' :: r₄ =>
                match pMembers f (skipWs r₄) with
                | none => none
                | some (ms, r₅) => some ((String.mk k, v) :: ms, r₅)
              | _ => none
          | _ => none
      | _ => none) := rfl

theorem skipWs_split (r X : List Char) (h : skipWs r = X) :
    r = r.takeWhile jws ++ X ∧ ∀ x ∈ r.takeWhile jws, jws x = true := by
  constructor
  · rw [← h]
    exact (List.takeWhile_append_dropWhile jws r).symm
  · exact fun x hx => List.mem_takeWhile_imp hx

theorem parser_ext (f : Nat) :
    (∀ cs v rest, pVal f cs = some (v, rest) →
      ∃ c0 u', cs = (c0 :: u') ++ rest ∧ tokenHead c0 = true ∧
        lastNotWs (c0 :: u') = true ∧
        ∀ tail f', numSafe tail = true → (c0 :: u').length < f' →
          pVal f' ((c0 :: u') ++ tail) = some (v, tail)) ∧
    (∀ cs vs rest, pElems f cs = some (vs, rest) →
      ∃ c0 u', cs = (c0 :: u') ++ rest ∧ tokenHead c0 = true ∧
        lastNotWs (c0 :: u') = true ∧
        ∀ tail f', numSafe tail = true → (c0 :: u').length < f' →
          pElems f' ((c0 :: u') ++ tail) = some (vs, tail)) ∧
    (∀ cs ms rest, pMembers f cs = some (ms, rest) →
      ∃ u', cs = ('"' :: u') ++ rest ∧ lastNotWs ('"' :: u') = true ∧
        ∀ tail f', numSafe tail = true → ('"' :: u').length < f' →
          pMembers f' (('"' :: u') ++ tail) = some (ms, tail)) := by
  induction f with
  | zero =>
    refine ⟨fun cs v rest h => ?_, fun cs vs rest h => ?_, fun cs ms rest h => ?_⟩
    · rw [pVal_zero] at h
      exact Option.noConfusion h
    · rw [pElems_zero] at h
      exact Option.noConfusion h
    · rw [pMembers_zero] at h
      exact Option.noConfusion h
  | succ f ih =>
    obtain ⟨ihV, ihE, ihM⟩ := ih
    refine ⟨fun cs v rest h => ?_, fun cs vs rest h => ?_, fun cs ms rest h => ?_⟩
    · cases cs with
      | nil =>
        rw [pVal_nil] at h
        exact Option.noConfusion h
      | cons c r =>
        rw [pVal_succ_cons] at h
        by_cases hq : c = '"'
        · subst hq
          simp at h
          obtain ⟨s, hp, hvr⟩ := h
          obtain ⟨us, hu1, hu2, hu3⟩ := pStr_ext r s rest hp
          refine ⟨'"', us, by simp [hu1], by decide, ?_, ?_⟩
          · rw [show ('"' :: us) = ['"'] ++ us from rfl]
            refine lastNotWs_append ['"'] us ?_
            unfold lastNotWs
            rw [hu2]
            rfl
          · intro tail f' _ hlen
            cases f' with
            | zero => exact absurd hlen (Nat.not_lt_zero _)
            | succ f'' =>
              rw [show (('"' :: us) ++ tail) = '"' :: (us ++ tail) from rfl, pVal_succ_cons]
              simp [hu3 tail, ← hvr]
        · by_cases hob : c = '\x7b'
          · subst hob
            simp at h
            split at h
            · rename_i r₂ heq
              simp at h
              obtain ⟨hv, hr⟩ := h
              obtain ⟨hrs, hw⟩ := skipWs_split r ('\x7d' :: r₂) heq
              refine ⟨'\x7b', r.takeWhile jws ++ ['\x7d'], ?_, by decide, ?_, ?_⟩
              · conv_lhs => rw [hrs]
                simp [hr]
              · rw [show ('\x7b' :: (r.takeWhile jws ++ ['\x7d'])) =
                  ('\x7b' :: r.takeWhile jws) ++ ['\x7d'] from rfl]
                exact lastNotWs_append _ ['\x7d'] (by decide)
              · intro tail f' _ hlen
                cases f' with
                | zero => exact absurd hlen (Nat.not_lt_zero _)
                | succ f'' =>
                  rw [show (('\x7b' :: (r.takeWhile jws ++ ['\x7d'])) ++ tail) =
                    '\x7b' :: (r.takeWhile jws ++ ('\x7d' :: tail)) by simp, pVal_succ_cons]
                  simp [skipWs_append_token (r.takeWhile jws) hw ('\x7d') (by decide) tail, ← hv]
            · rename_i hne
              rw [Option.map_eq_some'] at h
              obtain ⟨⟨ms, r₃⟩, hpm, hmr⟩ := h
              simp at hmr
              obtain ⟨hv, hr⟩ := hmr
              obtain ⟨um, hm1, hm2, hm3⟩ := ihM (skipWs r) ms r₃ hpm
              obtain ⟨hrs, hw⟩ := skipWs_split r (('"' :: um) ++ r₃) hm1
              refine ⟨'\x7b', r.takeWhile jws ++ ('"' :: um), ?_, by decide, ?_, ?_⟩
              · conv_lhs => rw [hrs]
                simp [hr]
              · rw [show ('\x7b' :: (r.takeWhile jws ++ ('"' :: um))) =
                  ('\x7b' :: r.takeWhile jws) ++ ('"' :: um) from rfl]
                exact lastNotWs_append _ _ hm2
              · intro tail f' hns hlen
                cases f' with
                | zero => exact absurd hlen (Nat.not_lt_zero _)
                | succ f'' =>
                  rw [show (('\x7b' :: (r.takeWhile jws ++ ('"' :: um))) ++ tail) =
                    '\x7b' :: (r.takeWhile jws ++ ('"' :: (um ++ tail))) by simp, pVal_succ_cons]
                  have hlen2 : ('"' :: um).length < f'' := by
                    simp [List.length_append] at hlen ⊢
                    omega
                  have hm3' := hm3 tail f'' hns hlen2
                  simp [skipWs_append_token (r.takeWhile jws) hw ('"') (by decide) (um ++ tail)]
                  rw [show ('"' :: (um ++ tail)) = ('"' :: um) ++ tail from rfl, hm3']
                  simp [← hv]
          · by_cases har : c = '['
            · subst har
              simp at h
              split at h
              · rename_i r₂ heq
                simp at h
                obtain ⟨hv, hr⟩ := h
                obtain ⟨hrs, hw⟩ := skipWs_split r (']' :: r₂) heq
                refine ⟨'[', r.takeWhile jws ++ [']'], ?_, by decide, ?_, ?_⟩
                · conv_lhs => rw [hrs]
                  simp [hr]
                · rw [show ('[' :: (r.takeWhile jws ++ [']'])) =
                    ('[' :: r.takeWhile jws) ++ [']'] from rfl]
                  exact lastNotWs_append _ [']'] (by decide)
                · intro tail f' _ hlen
                  cases f' with
                  | zero => exact absurd hlen (Nat.not_lt_zero _)
                  | succ f'' =>
                    rw [show (('[' :: (r.takeWhile jws ++ [']'])) ++ tail) =
                      '[' :: (r.takeWhile jws ++ (']' :: tail)) by simp, pVal_succ_cons]
                    simp [skipWs_append_token (r.takeWhile jws) hw (']') (by decide) tail, ← hv]
              · rename_i hne
                rw [Option.map_eq_some'] at h
                obtain ⟨⟨vs, r₃⟩, hpe, hmr⟩ := h
                simp at hmr
                obtain ⟨hv, hr⟩ := hmr
                obtain ⟨c1, ue, he1, htok1, hlast1, he3⟩ := ihE (skipWs r) vs r₃ hpe
                obtain ⟨hrs, hw⟩ := skipWs_split r ((c1 :: ue) ++ r₃) he1
                refine ⟨'[', r.takeWhile jws ++ (c1 :: ue), ?_, by decide, ?_, ?_⟩
                · conv_lhs => rw [hrs]
                  simp [hr]
                · rw [show ('[' :: (r.takeWhile jws ++ (c1 :: ue))) =
                    ('[' :: r.takeWhile jws) ++ (c1 :: ue) from rfl]
                  exact lastNotWs_append _ _ hlast1
                · intro tail f' hns hlen
                  cases f' with
                  | zero => exact absurd hlen (Nat.not_lt_zero _)
                  | succ f'' =>
                    rw [show (('[' :: (r.takeWhile jws ++ (c1 :: ue))) ++ tail) =
                      '[' :: (r.takeWhile jws ++ (c1 :: (ue ++ tail))) by simp, pVal_succ_cons]
                    have hlen2 : (c1 :: ue).length < f'' := by
                      simp [List.length_append] at hlen ⊢
                      omega
                    have he3' := he3 tail f'' hns hlen2
                    simp [skipWs_append_token (r.takeWhile jws) hw c1
                      (pySpace_false_jws c1 (tokenHead_not_pySpace c1 htok1)) (ue ++ tail)]
                    split
                    · rename_i r₄ heq4
                      exact absurd ((List.cons.injEq c1 (ue ++ tail) (']') r₄).mp heq4).1
                        (tokenHead_ne_rbracket c1 htok1)
                    · rw [show (c1 :: (ue ++ tail)) = (c1 :: ue) ++ tail from rfl, he3']
                      simp [← hv]
            · by_cases hn : c = 'n'
              · subst hn
                simp at h
                split at h
                · rename_i r'
                  simp at h
                  obtain ⟨hv, hr⟩ := h
                  refine ⟨'n', ['u', 'l', 'l'], by simp [hr], by decide, by decide, ?_⟩
                  intro tail f' _ hlen
                  cases f' with
                  | zero => exact absurd hlen (Nat.not_lt_zero _)
                  | succ f'' =>
                    rw [show ((('n' : Char) :: ['u', 'l', 'l']) ++ tail) =
                      'n' :: 'u' :: 'l' :: 'l' :: tail from rfl, pVal_succ_cons]
                    simp [← hv]
                · exact Option.noConfusion h
              · by_cases ht : c = 't'
                · subst ht
                  simp at h
                  split at h
                  · rename_i r'
                    simp at h
                    obtain ⟨hv, hr⟩ := h
                    refine ⟨'t', ['r', 'u', 'e'], by simp [hr], by decide, by decide, ?_⟩
                    intro tail f' _ hlen
                    cases f' with
                    | zero => exact absurd hlen (Nat.not_lt_zero _)
                    | succ f'' =>
                      rw [show ((('t' : Char) :: ['r', 'u', 'e']) ++ tail) =
                        't' :: 'r' :: 'u' :: 'e' :: tail from rfl, pVal_succ_cons]
                      simp [← hv]
                  · exact Option.noConfusion h
                · by_cases hf : c = 'f'
                  · subst hf
                    simp at h
                    split at h
                    · rename_i r'
                      simp at h
                      obtain ⟨hv, hr⟩ := h
                      refine ⟨'f', ['a', 'l', 's', 'e'], by simp [hr], by decide, by decide, ?_⟩
                      intro tail f' _ hlen
                      cases f' with
                      | zero => exact absurd hlen (Nat.not_lt_zero _)
                      | succ f'' =>
                        rw [show ((('f' : Char) :: ['a', 'l', 's', 'e']) ++ tail) =
                          'f' :: 'a' :: 'l' :: 's' :: 'e' :: tail from rfl, pVal_succ_cons]
                        simp [← hv]
                    · exact Option.noConfusion h
                  · by_cases hN : c = 'N'
                    · subst hN
                      simp at h
                      split at h
                      · rename_i r'
                        simp at h
                        obtain ⟨hv, hr⟩ := h
                        refine ⟨'N', ['a', 'N'], by simp [hr], by decide, by decide, ?_⟩
                        intro tail f' _ hlen
                        cases f' with
                        | zero => exact absurd hlen (Nat.not_lt_zero _)
                        | succ f'' =>
                          rw [show ((('N' : Char) :: ['a', 'N']) ++ tail) =
                            'N' :: 'a' :: 'N' :: tail from rfl, pVal_succ_cons]
                          simp [← hv]
                      · exact Option.noConfusion h
                    · by_cases hI : c = 'I'
                      · subst hI
                        simp at h
                        split at h
                        · rename_i r'
                          simp at h
                          obtain ⟨hv, hr⟩ := h
                          refine ⟨'I', ['n', 'f', 'i', 'n', 'i', 't', 'y'],
                            by simp [hr], by decide, by decide, ?_⟩
                          intro tail f' _ hlen
                          cases f' with
                          | zero => exact absurd hlen (Nat.not_lt_zero _)
                          | succ f'' =>
                            rw [show ((('I' : Char) :: ['n', 'f', 'i', 'n', 'i', 't', 'y']) ++ tail) =
                              'I' :: 'n' :: 'f' :: 'i' :: 'n' :: 'i' :: 't' :: 'y' :: tail from rfl,
                              pVal_succ_cons]
                            simp [← hv]
                        · exact Option.noConfusion h
                      · by_cases hM : c = '-'
                        · subst hM
                          simp at h
                          split at h
                          · rename_i r'
                            simp at h
                            obtain ⟨hv, hr⟩ := h
                            refine ⟨'-', ['I', 'n', 'f', 'i', 'n', 'i', 't', 'y'],
                              by simp [hr], by decide, by decide, ?_⟩
                            intro tail f' _ hlen
                            cases f' with
                            | zero => exact absurd hlen (Nat.not_lt_zero _)
                            | succ f'' =>
                              rw [show ((('-' : Char) :: ['I', 'n', 'f', 'i', 'n', 'i', 't', 'y']) ++ tail) =
                                '-' :: 'I' :: 'n' :: 'f' :: 'i' :: 'n' :: 'i' :: 't' :: 'y' :: tail from rfl,
                                pVal_succ_cons]
                              simp [← hv]
                          · rename_i hne
                            obtain ⟨u, hu1, ⟨cc, uu, huc, hshape⟩, hlast, hrerun⟩ :=
                              pNum_ext ('-' :: r) v rest h
                            subst huc
                            simp only [List.cons_append] at hu1
                            injection hu1 with hc0 hru
                            subst hc0
                            rcases hshape with hdig | ⟨_, c1, u'', hueq, hc1⟩
                            · exact absurd hdig (by decide)
                            · subst hueq
                              refine ⟨'-', c1 :: u'', by simp [hru], by decide, hlast, ?_⟩
                              intro tail f' hns hlen
                              cases f' with
                              | zero => exact absurd hlen (Nat.not_lt_zero _)
                              | succ f'' =>
                                rw [show ((('-' : Char) :: c1 :: u'') ++ tail) =
                                  '-' :: (c1 :: (u'' ++ tail)) from rfl, pVal_succ_cons]
                                have hrr := hrerun tail hns
                                simp only [List.cons_append] at hrr
                                simp
                                split
                                · rename_i r₄ heq4
                                  have : c1 = 'I' := ((List.cons.injEq c1 (u'' ++ tail) ('I')
                                    ('n' :: 'f' :: 'i' :: 'n' :: 'i' :: 't' :: 'y' :: r₄)).mp heq4).1
                                  exact absurd this (digit_ne c1 ('I') hc1 (by decide))
                                · exact hrr
                        · by_cases hd : c.isDigit
                          · simp [hq, hob, har, hn, ht, hf, hN, hI, hM, hd] at h
                            obtain ⟨u, hu1, ⟨cc, uu, huc, hshape⟩, hlast, hrerun⟩ :=
                              pNum_ext (c :: r) v rest h
                            subst huc
                            simp only [List.cons_append] at hu1
                            injection hu1 with hc0 hru
                            subst hc0
                            refine ⟨c, uu, by simp [hru], by simp [tokenHead, hd], hlast, ?_⟩
                            intro tail f' hns hlen
                            cases f' with
                            | zero => exact absurd hlen (Nat.not_lt_zero _)
                            | succ f'' =>
                              rw [show ((c :: uu) ++ tail) = c :: (uu ++ tail) from rfl, pVal_succ_cons]
                              have hrr := hrerun tail hns
                              simp only [List.cons_append] at hrr
                              simp [digit_ne c ('"') hd (by decide),
                                digit_ne c ('\x7b') hd (by decide),
                                digit_ne c ('[') hd (by decide),
                                digit_ne c ('n') hd (by decide),
                                digit_ne c ('t') hd (by decide),
                                digit_ne c ('f') hd (by decide),
                                digit_ne c ('N') hd (by decide),
                                digit_ne c ('I') hd (by decide),
                                digit_ne c ('-') hd (by decide), hd]
                              exact hrr
                          · simp [hq, hob, har, hn, ht, hf, hN, hI, hM, hd] at h
    · rw [pElems_succ] at h
      split at h
      · exact Option.noConfusion h
      · rename_i v r hpv
        obtain ⟨cv, uv, hv1, htokv, hlastv, hv3⟩ := ihV cs v r hpv
        split at h
        · rename_i r₂ heq
          simp at h
          obtain ⟨hv, hr⟩ := h
          obtain ⟨hrs, hw⟩ := skipWs_split r (']' :: r₂) heq
          refine ⟨cv, uv ++ r.takeWhile jws ++ [']'], ?_, htokv, ?_, ?_⟩
          · conv_lhs => rw [hv1]
            conv_lhs => rw [hrs]
            simp [hr]
          · rw [show (cv :: (uv ++ r.takeWhile jws ++ [']'])) =
              (cv :: (uv ++ r.takeWhile jws)) ++ [']'] by simp]
            exact lastNotWs_append _ [']'] (by decide)
          · intro tail f' hns hlen
            cases f' with
            | zero => exact absurd hlen (Nat.not_lt_zero _)
            | succ f'' =>
              have hlen2 : (cv :: uv).length < f'' := by
                simp [List.length_append] at hlen ⊢
                omega
              have hns1 : numSafe (r.takeWhile jws ++ (']' :: tail)) = true :=
                jws_numSafe _ hw _ (by rfl)
              rw [show ((cv :: (uv ++ r.takeWhile jws ++ [']'])) ++ tail) =
                (cv :: uv) ++ (r.takeWhile jws ++ (']' :: tail)) by simp, pElems_succ,
                hv3 _ f'' hns1 hlen2]
              simp [skipWs_append_token (r.takeWhile jws) hw (']') (by decide), ← hv]
        · rename_i r₂ heq
          obtain ⟨hrs, hw⟩ := skipWs_split r (',' :: r₂) heq
          split at h
          · exact Option.noConfusion h
          · rename_i vs' r₃ hpe
            simp at h
            obtain ⟨hv, hr⟩ := h
            obtain ⟨c1, ue, he1, htok1, hlast1, he3⟩ := ihE (skipWs r₂) vs' r₃ hpe
            obtain ⟨hrs2, hw2⟩ := skipWs_split r₂ ((c1 :: ue) ++ r₃) he1
            have hc1f : jws c1 = false := pySpace_false_jws c1 (tokenHead_not_pySpace c1 htok1)
            refine ⟨cv, uv ++ r.takeWhile jws ++ ',' :: (r₂.takeWhile jws ++ (c1 :: ue)),
              ?_, htokv, ?_, ?_⟩
            · conv_lhs => rw [hv1]
              conv_lhs => rw [hrs]
              conv_lhs => rw [hrs2]
              simp [hr]
            · rw [show (cv :: (uv ++ r.takeWhile jws ++ ',' :: (r₂.takeWhile jws ++ (c1 :: ue)))) =
                (cv :: (uv ++ r.takeWhile jws ++ ',' :: r₂.takeWhile jws)) ++ (c1 :: ue) by simp]
              exact lastNotWs_append _ _ hlast1
            · intro tail f' hns hlen
              cases f' with
              | zero => exact absurd hlen (Nat.not_lt_zero _)
              | succ f'' =>
                have hlen2 : (cv :: uv).length < f'' := by
                  simp [List.length_append] at hlen ⊢
                  omega
                have hlen3 : (c1 :: ue).length < f'' := by
                  simp [List.length_append] at hlen ⊢
                  omega
                have hns1 : numSafe (r.takeWhile jws ++
                    ',' :: (r₂.takeWhile jws ++ (c1 :: (ue ++ tail)))) = true :=
                  jws_numSafe _ hw _ (by rfl)
                have he3' := he3 tail f'' hns hlen3
                rw [show ((cv :: (uv ++ r.takeWhile jws ++
                    ',' :: (r₂.takeWhile jws ++ (c1 :: ue)))) ++ tail) =
                  (cv :: uv) ++ (r.takeWhile jws ++
                    ',' :: (r₂.takeWhile jws ++ (c1 :: (ue ++ tail)))) by simp, pElems_succ,
                  hv3 _ f'' hns1 hlen2]
                simp only [List.cons_append] at he3'
                simp [skipWs_append_token (r.takeWhile jws) hw (',') (by decide),
                  skipWs_append_token (r₂.takeWhile jws) hw2 c1 hc1f, he3', ← hv]
        · exact Option.noConfusion h
    · rw [pMembers_succ] at h
      split at h
      · rename_i r
        split at h
        · exact Option.noConfusion h
        · rename_i k r₁ hps
          obtain ⟨us, hu1, hu2, hu3⟩ := pStr_ext r k r₁ hps
          split at h
          · rename_i r₂ heq1
            obtain ⟨hrs1, hw1⟩ := skipWs_split r₁ (':' :: r₂) heq1
            split at h
            · exact Option.noConfusion h
            · rename_i v r₃ hpv
              obtain ⟨cv, uv, hv1, htokv, hlastv, hv3⟩ := ihV (skipWs r₂) v r₃ hpv
              obtain ⟨hrs2, hw2⟩ := skipWs_split r₂ ((cv :: uv) ++ r₃) hv1
              have hcvf : jws cv = false := pySpace_false_jws cv (tokenHead_not_pySpace cv htokv)
              split at h
              · rename_i r₄ heq3
                simp at h
                obtain ⟨hm, hr⟩ := h
                obtain ⟨hrs3, hw3⟩ := skipWs_split r₃ ('\x7d' :: r₄) heq3
                refine ⟨us ++ r₁.takeWhile jws ++
                  ':' :: (r₂.takeWhile jws ++ (cv :: uv) ++ r₃.takeWhile jws ++ ['\x7d']),
                  ?_, ?_, ?_⟩
                · conv_lhs => rw [hu1]
                  conv_lhs => rw [hrs1]
                  conv_lhs => rw [hrs2]
                  conv_lhs => rw [hrs3]
                  simp [hr]
                · rw [show ('"' :: (us ++ r₁.takeWhile jws ++
                    ':' :: (r₂.takeWhile jws ++ (cv :: uv) ++ r₃.takeWhile jws ++ ['\x7d']))) =
                    ('"' :: (us ++ r₁.takeWhile jws ++
                      ':' :: (r₂.takeWhile jws ++ (cv :: uv) ++ r₃.takeWhile jws))) ++ ['\x7d'] by simp]
                  exact lastNotWs_append _ ['\x7d'] (by decide)
                · intro tail f' hns hlen
                  cases f' with
                  | zero => exact absurd hlen (Nat.not_lt_zero _)
                  | succ f'' =>
                    have hlen2 : (cv :: uv).length < f'' := by
                      simp [List.length_append] at hlen ⊢
                      omega
                    have hns1 : numSafe (r₃.takeWhile jws ++ ('\x7d' :: tail)) = true :=
                      jws_numSafe _ hw3 _ (by rfl)
                    have hv3' := hv3 (r₃.takeWhile jws ++ ('\x7d' :: tail)) f'' hns1 hlen2
                    simp only [List.cons_append] at hv3'
                    rw [show (('"' :: (us ++ r₁.takeWhile jws ++
                        ':' :: (r₂.takeWhile jws ++ (cv :: uv) ++ r₃.takeWhile jws ++ ['\x7d']))) ++ tail) =
                      '"' :: (us ++ (r₁.takeWhile jws ++
                        ':' :: (r₂.takeWhile jws ++ (cv :: (uv ++ (r₃.takeWhile jws ++
                          ('\x7d' :: tail))))))) by simp,
                      pMembers_succ]
                    simp [hu3, skipWs_append_token (r₁.takeWhile jws) hw1 (':') (by decide),
                      skipWs_append_token (r₂.takeWhile jws) hw2 cv hcvf,
                      hv3', skipWs_append_token (r₃.takeWhile jws) hw3 ('\x7d') (by decide), ← hm]
              · rename_i r₄ heq3
                obtain ⟨hrs3, hw3⟩ := skipWs_split r₃ (',' :: r₄) heq3
                split at h
                · exact Option.noConfusion h
                · rename_i ms' r₅ hpm
                  simp at h
                  obtain ⟨hm, hr⟩ := h
                  obtain ⟨um, hm1, hm2, hm3⟩ := ihM (skipWs r₄) ms' r₅ hpm
                  obtain ⟨hrs4, hw4⟩ := skipWs_split r₄ (('"' :: um) ++ r₅) hm1
                  refine ⟨us ++ r₁.takeWhile jws ++
                    ':' :: (r₂.takeWhile jws ++ (cv :: uv) ++ r₃.takeWhile jws ++
                      ',' :: (r₄.takeWhile jws ++ ('"' :: um))), ?_, ?_, ?_⟩
                  · conv_lhs => rw [hu1]
                    conv_lhs => rw [hrs1]
                    conv_lhs => rw [hrs2]
                    conv_lhs => rw [hrs3]
                    conv_lhs => rw [hrs4]
                    simp [hr]
                  · rw [show ('"' :: (us ++ r₁.takeWhile jws ++
                      ':' :: (r₂.takeWhile jws ++ (cv :: uv) ++ r₃.takeWhile jws ++
                        ',' :: (r₄.takeWhile jws ++ ('"' :: um))))) =
                      ('"' :: (us ++ r₁.takeWhile jws ++
                        ':' :: (r₂.takeWhile jws ++ (cv :: uv) ++ r₃.takeWhile jws ++
                          ',' :: r₄.takeWhile jws))) ++ ('"' :: um) by simp]
                    exact lastNotWs_append _ _ hm2
                  · intro tail f' hns hlen
                    cases f' with
                    | zero => exact absurd hlen (Nat.not_lt_zero _)
                    | succ f'' =>
                      have hlen2 : (cv :: uv).length < f'' := by
                        simp [List.length_append] at hlen ⊢
                        omega
                      have hlen3 : ('"' :: um).length < f'' := by
                        simp [List.length_append] at hlen ⊢
                        omega
                      have hns1 : numSafe (r₃.takeWhile jws ++
                          ',' :: (r₄.takeWhile jws ++ ('"' :: (um ++ tail)))) = true :=
                        jws_numSafe _ hw3 _ (by rfl)
                      have hv3' := hv3 (r₃.takeWhile jws ++
                        ',' :: (r₄.takeWhile jws ++ ('"' :: (um ++ tail)))) f'' hns1 hlen2
                      simp only [List.cons_append] at hv3'
                      have hm3' := hm3 tail f'' hns hlen3
                      simp only [List.cons_append] at hm3'
                      rw [show (('"' :: (us ++ r₁.takeWhile jws ++
                          ':' :: (r₂.takeWhile jws ++ (cv :: uv) ++ r₃.takeWhile jws ++
                            ',' :: (r₄.takeWhile jws ++ ('"' :: um))))) ++ tail) =
                        '"' :: (us ++ (r₁.takeWhile jws ++
                          ':' :: (r₂.takeWhile jws ++ (cv :: (uv ++ (r₃.takeWhile jws ++
                            ',' :: (r₄.takeWhile jws ++ ('"' :: (um ++ tail))))))))) by simp,
                        pMembers_succ]
                      simp [hu3, skipWs_append_token (r₁.takeWhile jws) hw1 (':') (by decide),
                        skipWs_append_token (r₂.takeWhile jws) hw2 cv hcvf,
                        hv3', skipWs_append_token (r₃.takeWhile jws) hw3 (',') (by decide),
                        skipWs_append_token (r₄.takeWhile jws) hw4 ('"') (by decide),
                        hm3', ← hm]
              · exact Option.noConfusion h
          · exact Option.noConfusion h
      · exact Option.noConfusion h

theorem json_loads_eq (cs : List Char) : json_loads cs =
    (match pVal (2 * (skipWs cs).length + 2) (skipWs cs) with
    | some (v, rest) => if skipWs rest = [] then some v else none
    | none => none) := rfl

/-- C2: a response consisting of a JSON payload wrapped in the markdown code
fence markers is cleaned by line 71 to a text that parses to exactly the same
value as the bare payload (round-trip: wrap, strip, parse = parse). -/
theorem claim2_fence_roundtrip (p : List Char) (h : (json_loads p).isSome = true) :
    json_loads (cleanResponse (wrapFence p)) = json_loads p := by
  rw [clean_wrap]
  rw [json_loads_eq p] at h
  split at h
  · rename_i v rest hpv
    split at h
    · rename_i hre
      obtain ⟨c0, u', hcs, htok, hlast, hrerun⟩ :=
        (parser_ext (2 * (skipWs p).length + 2)).1 (skipWs p) v rest hpv
      have hnp : isPySpace c0 = false := tokenHead_not_pySpace c0 htok
      have hw : ∀ c ∈ p.takeWhile jws, isPySpace c = true :=
        fun c hc => jws_pySpace c (List.mem_takeWhile_imp hc)
      have hrest : ∀ c ∈ rest, isPySpace c = true := by
        intro c hc
        exact jws_pySpace c ((List.dropWhile_eq_nil_iff.mp hre) c hc)
      have hsplit : p = p.takeWhile jws ++ ((c0 :: u') ++ rest) := by
        conv_lhs => rw [← List.takeWhile_append_dropWhile jws p]
        rw [show p.dropWhile jws = skipWs p from rfl, hcs]
      have hd1 : (p.takeWhile jws ++ ((c0 :: u') ++ rest)).dropWhile isPySpace =
          (c0 :: u') ++ rest := by
        rw [dropWhile_append_all isPySpace _ _ hw]
        exact dropWhile_pySpace_self _ (by simp [headNotWs, hnp])
      have hd2 : ((c0 :: u') ++ rest).reverse.dropWhile isPySpace = (c0 :: u').reverse := by
        rw [List.reverse_append]
        rw [dropWhile_append_all isPySpace _ _ (fun c hc => hrest c (List.mem_reverse.mp hc))]
        exact dropWhile_pySpace_self _ (by rw [headNotWs_reverse]; exact hlast)
      have hstrip : pyStrip p = c0 :: u' := by
        unfold pyStrip
        conv_lhs => rw [hsplit]
        rw [hd1, hd2, List.reverse_reverse]
      rw [hstrip]
      have hh : headNotWs (c0 :: u') = true := by simp [headNotWs, hnp]
      have hsw : skipWs (c0 :: u') = c0 :: u' := dropWhile_jws_self _ hh
      have hrr := hrerun [] (2 * (c0 :: u').length + 2) (by rfl) (by omega)
      rw [List.append_nil] at hrr
      rw [json_loads_eq, hsw, hrr, json_loads_eq p, hpv]
      simp [hre, show skipWs ([] : List Char) = [] from rfl]
    · simp at h
  · simp at h

theorem claim2_fence_roundtrip_witness :
    (json_loads (("\x7b\"mcqs\": []\x7d").data)).isSome = true ∧
      json_loads (cleanResponse (wrapFence (("\x7b\"mcqs\": []\x7d").data))) =
        json_loads (("\x7b\"mcqs\": []\x7d").data) :=
  ⟨by decide, claim2_fence_roundtrip (("\x7b\"mcqs\": []\x7d").data) (by decide)⟩
